import Mathlib

/-! The swap allocator and the system-call layer of a Pintos kernel.

A shallow embedding of `src/vm/swap.c` and `src/userprog/syscall.c`.

* Machine words are natural numbers or integers; where the C arithmetic can
  wrap, the reduction modulo `2 ^ 32` is written out.
* A kernel panic (a failed `ASSERT`, a `PANIC`) is an `Except.error`.
* A page is an address together with its bytes, a function from the offset in
  the page to the byte stored there.
-/

namespace Pintos

/-! ## Constants of headers that are not among the sources -/

/-- Constants of `threads/vaddr.h` and `devices/block.h`.  Neither header is
among the sources, so the three values are parameters of the development. -/
structure Params where
  /-- Bytes in a page. -/
  PGSIZE : Nat
  /-- Bytes in a block-device sector. -/
  BLOCK_SECTOR_SIZE : Nat
  /-- First kernel virtual address. -/
  PHYS_BASE : Nat
  deriving DecidableEq, Repr

/-- The values the Pintos headers give the constants. -/
def pintos : Params := ⟨4096, 512, 0xc0000000⟩

/-- Side conditions on the constants: sectors tile a page exactly, and a page
and the kernel base are 32-bit quantities. -/
def Params.WF (c : Params) : Prop :=
  0 < c.BLOCK_SECTOR_SIZE ∧ 0 < c.PGSIZE ∧ c.BLOCK_SECTOR_SIZE ∣ c.PGSIZE ∧
    c.PGSIZE < 2 ^ 32 ∧ c.PHYS_BASE < 2 ^ 32

/-- The reasons for which the kernel stops. -/
inductive Fatal
  /-- A failed `ASSERT`. -/
  | assertion
  /-- The `PANIC` of `vm_swap_init`: there is no swap block device. -/
  | panic_swap_block
  /-- `PANIC ("Error, invalid read access to unassigned swap block")`. -/
  | panic_read_unassigned
  /-- `PANIC ("Error, invalid free request to unassigned swap block")`. -/
  | panic_free_unassigned
  /-- The block layer refuses a sector past the end of the device. -/
  | panic_sector_range
  /-- `list_remove` is applied to the tail sentinel of a list. -/
  | panic_list_sentinel
  /-- A null pointer returned by the allocator is dereferenced. -/
  | panic_null_deref
  deriving DecidableEq, Repr

/-! ## Block device and bitmap (library code used by `swap.c`) -/

/-- Modelled from the spec: the block device (`devices/block.c` is not among the
sources; the spec lists `read_sector`, `write_sector` and
`device_size_in_sectors`).  A device is its size in sectors and the byte stored
at each offset of each sector. -/
structure block where
  size : Nat
  data : Nat → Nat → Nat

/-- Modelled from the spec: `block_size`, the number of sectors of a device. -/
def block_size (b : block) : Nat := b.size

/-- Modelled from the spec: `block_write` (`write_sector`).  `buffer off` is the
byte at offset `off` of the source buffer.  A sector past the end of the device
stops the kernel. -/
def block_write (c : Params) (b : block) (sector : Nat) (buffer : Nat → Nat) :
    Except Fatal block :=
  if sector < b.size then
    .ok { b with
      data := fun s off =>
        if s = sector ∧ off < c.BLOCK_SECTOR_SIZE then buffer off else b.data s off }
  else .error .panic_sector_range

/-- Modelled from the spec: `block_read` (`read_sector`).  The destination
buffer starts at offset `ofs` of the page whose bytes are `bytes`; the result is
the page afterwards. -/
def block_read (c : Params) (b : block) (sector : Nat) (bytes : Nat → Nat) (ofs : Nat) :
    Except Fatal (Nat → Nat) :=
  if sector < b.size then
    .ok (fun a =>
      if ofs ≤ a ∧ a < ofs + c.BLOCK_SECTOR_SIZE then b.data sector (a - ofs) else bytes a)
  else .error .panic_sector_range

/-- The value `bitmap_scan` returns when it finds nothing (`SIZE_MAX`). -/
def BITMAP_ERROR : Nat := 2 ^ 32 - 1

/-- Modelled from the spec: `bitmap_create` followed by `bitmap_set_all`
(`lib/kernel/bitmap.c` is not among the sources): `bit_cnt` bits, all `value`. -/
def bitmap_create_all (bit_cnt : Nat) (value : Bool) : List Bool :=
  List.replicate bit_cnt value

/-- Modelled from the spec: `bitmap_test`, which asserts that the index is in
range. -/
def bitmap_test (b : List Bool) (idx : Nat) : Except Fatal Bool :=
  match b[idx]? with
  | some v => .ok v
  | none => .error .assertion

/-- Modelled from the spec: `bitmap_set`, which asserts that the index is in
range. -/
def bitmap_set (b : List Bool) (idx : Nat) (value : Bool) : Except Fatal (List Bool) :=
  if idx < b.length then .ok (b.set idx value) else .error .assertion

/-- Modelled from the spec: `bitmap_contains`, whether any of the `cnt` bits
from `start` on equals `value`. -/
def bitmap_contains (b : List Bool) (start cnt : Nat) (value : Bool) : Bool :=
  (List.range cnt).any (fun k => b[start + k]? == some value)

/-- The loop of `bitmap_scan`: `n` candidate positions remain, the next is `i`. -/
def bitmap_scan_loop (b : List Bool) (cnt : Nat) (value : Bool) : Nat → Nat → Nat
  | 0, _ => BITMAP_ERROR
  | n + 1, i =>
    if bitmap_contains b i cnt (!value) then bitmap_scan_loop b cnt value n (i + 1) else i

/-- Modelled from the spec: `bitmap_scan` ("scans the bitmap for the first free
slot (first-fit)"): the first index at or after `start` of `cnt` consecutive
bits that all equal `value`, or `BITMAP_ERROR`. -/
def bitmap_scan (b : List Bool) (start cnt : Nat) (value : Bool) : Nat :=
  if cnt ≤ b.length then bitmap_scan_loop b cnt value (b.length - cnt + 1 - start) start
  else BITMAP_ERROR

/-! ## `src/vm/swap.c` -/

/-- `SECTORS_PER_PAGE = PGSIZE / BLOCK_SECTOR_SIZE`. -/
def SECTORS_PER_PAGE (c : Params) : Nat := c.PGSIZE / c.BLOCK_SECTOR_SIZE

/-- The three static variables of `swap.c`. -/
structure swap_state where
  /-- The device `swap_block` points to. -/
  swap_block : block
  /-- The bitmap `swap_available`; `true` is a free slot. -/
  swap_available : List Bool
  /-- The number of swap slots. -/
  swap_size : Nat

/-- `vm_swap_init`; `dev` is what `block_get_role (BLOCK_SWAP)` returns. -/
def vm_swap_init (c : Params) (dev : Option block) : Except Fatal swap_state :=
  if SECTORS_PER_PAGE c > 0 then
    match dev with
    | none => .error .panic_swap_block
    | some b =>
      let swap_size := block_size b / SECTORS_PER_PAGE c
      .ok { swap_block := b, swap_available := bitmap_create_all swap_size true,
            swap_size := swap_size }
  else .error .assertion

/-- The write loop of `vm_swap_out`: `n` iterations remain, the next has
counter `i`. -/
def swap_write_loop (c : Params) (swap_index : Nat) (bytes : Nat → Nat) :
    Nat → Nat → block → Except Fatal block
  | 0, _, b => .ok b
  | n + 1, i, b =>
    match block_write c b ((swap_index * SECTORS_PER_PAGE c + i) % 2 ^ 32)
        (fun off => bytes (c.BLOCK_SECTOR_SIZE * i + off)) with
    | .ok b1 => swap_write_loop c swap_index bytes n (i + 1) b1
    | .error e => .error e

/-- `vm_swap_out (page)`; `bytes` are the bytes of the page. -/
def vm_swap_out (c : Params) (st : swap_state) (page : Nat) (bytes : Nat → Nat) :
    Except Fatal (Nat × swap_state) :=
  if c.PHYS_BASE ≤ page then
    let swap_index := bitmap_scan st.swap_available 0 1 true
    match swap_write_loop c swap_index bytes (SECTORS_PER_PAGE c) 0 st.swap_block with
    | .error e => .error e
    | .ok b1 =>
      match bitmap_set st.swap_available swap_index false with
      | .error e => .error e
      | .ok bm => .ok (swap_index, { st with swap_block := b1, swap_available := bm })
  else .error .assertion

/-- The read loop of `vm_swap_in`: `n` iterations remain, the next has counter
`i`; `bytes` are the bytes of the destination page so far. -/
def swap_read_loop (c : Params) (swap_index : Nat) (b : block) :
    Nat → Nat → (Nat → Nat) → Except Fatal (Nat → Nat)
  | 0, _, bytes => .ok bytes
  | n + 1, i, bytes =>
    match block_read c b ((swap_index * SECTORS_PER_PAGE c + i) % 2 ^ 32) bytes
        (c.BLOCK_SECTOR_SIZE * i) with
    | .ok bytes1 => swap_read_loop c swap_index b n (i + 1) bytes1
    | .error e => .error e

/-- `vm_swap_in (swap_index, page)`; `bytes` are the bytes of the destination
page before the call, the result carries its bytes afterwards. -/
def vm_swap_in (c : Params) (st : swap_state) (swap_index : Nat) (page : Nat)
    (bytes : Nat → Nat) : Except Fatal (swap_state × (Nat → Nat)) :=
  if c.PHYS_BASE ≤ page then
    if swap_index < st.swap_size then
      match bitmap_test st.swap_available swap_index with
      | .error e => .error e
      | .ok true => .error .panic_read_unassigned
      | .ok false =>
        match swap_read_loop c swap_index st.swap_block (SECTORS_PER_PAGE c) 0 bytes with
        | .error e => .error e
        | .ok bytes1 =>
          match bitmap_set st.swap_available swap_index true with
          | .error e => .error e
          | .ok bm => .ok ({ st with swap_available := bm }, bytes1)
    else .error .assertion
  else .error .assertion

/-- `vm_swap_free (swap_index)`.  The source panics when
`!bitmap_test (swap_available, swap_index)`, that is, when the bit is `false`. -/
def vm_swap_free (st : swap_state) (swap_index : Nat) :
    Except Fatal swap_state :=
  if swap_index < st.swap_size then
    match bitmap_test st.swap_available swap_index with
    | .error e => .error e
    | .ok false => .error .panic_free_unassigned
    | .ok true =>
      match bitmap_set st.swap_available swap_index true with
      | .error e => .error e
      | .ok bm => .ok { st with swap_available := bm }
  else .error .assertion

/-! ### Invariant of the swap state and sequences of calls -/

/-- What `vm_swap_init` establishes and every call keeps: the bitmap has one bit
per slot, the slots are the whole pages of the device, and the size of the
device is a 32-bit sector count. -/
def swap_state.WF (c : Params) (st : swap_state) : Prop :=
  st.swap_available.length = st.swap_size ∧
    st.swap_size = st.swap_block.size / SECTORS_PER_PAGE c ∧
    st.swap_block.size < 2 ^ 32

/-- One call of the interface of `swap.c`, with its arguments. -/
inductive swap_call
  /-- `vm_swap_out (page)`, the page holding `bytes`. -/
  | out (page : Nat) (bytes : Nat → Nat)
  /-- `vm_swap_in (swap_index, page)`, the page holding `bytes` before. -/
  | inn (swap_index : Nat) (page : Nat) (bytes : Nat → Nat)
  /-- `vm_swap_free (swap_index)`. -/
  | free (swap_index : Nat)

/-- The call is a `vm_swap_in` or a `vm_swap_free` on slot `s`. -/
def swap_call.consumes (s : Nat) : swap_call → Prop
  | .out _ _ => False
  | .inn swap_index _ _ => swap_index = s
  | .free swap_index => swap_index = s

/-- The state after one call, or the reason the kernel stopped. -/
def swap_call.run (c : Params) (st : swap_state) : swap_call → Except Fatal swap_state
  | .out page bytes =>
    match vm_swap_out c st page bytes with
    | .ok (_, st1) => .ok st1
    | .error e => .error e
  | .inn swap_index page bytes =>
    match vm_swap_in c st swap_index page bytes with
    | .ok (st1, _) => .ok st1
    | .error e => .error e
  | .free swap_index => vm_swap_free st swap_index

/-- The state after a sequence of calls, or the reason the kernel stopped. -/
def swap_calls_run (c : Params) : List swap_call → swap_state → Except Fatal swap_state
  | [], st => .ok st
  | op :: ops, st =>
    match op.run c st with
    | .ok st1 => swap_calls_run c ops st1
    | .error e => .error e

/-- A concrete swap device of sixteen sectors, all bytes zero. -/
def swap_demo_device : block := ⟨16, fun _ _ => 0⟩

/-- The state `vm_swap_init` builds on `swap_demo_device` with the Pintos
constants: two slots, both free. -/
def swap_demo : swap_state := ⟨swap_demo_device, [true, true], 2⟩

/-! ## `src/userprog/syscall.c`: data -/

/-- `struct file_descriptor`; `file_struct` is the address of the `struct file`. -/
structure file_descriptor where
  fd_num : Int
  owner : Int
  file_struct : Nat
  deriving DecidableEq, Repr

/-- Modelled from the spec: `struct child_status` of `threads/thread.h`, the
per-child record `exit` fills in ("the parent's per-child bookkeeping"). -/
structure child_status where
  child_id : Int
  is_exit_called : Bool
  child_exit_status : Int
  deriving DecidableEq, Repr

/-- Modelled from the spec: `struct file_desc` of `userprog/process.h`, the
per-thread descriptor `find_file_desc` looks through; `file` and `dir` are
addresses, `0` being `NULL`. -/
structure file_desc where
  id : Int
  file : Nat
  dir : Nat
  deriving DecidableEq, Repr

/-- Modelled from the spec: `struct mmap_desc` of `userprog/process.h`
("Memory-Mapped Region: id, file, base address, length"). -/
structure mmap_desc where
  id : Int
  file : Nat
  addr : Nat
  size : Nat
  deriving DecidableEq, Repr

/-- Modelled from the spec: an entry of the supplemental page table, the
arguments of `install_filesys_mapping (supt, addr, file, offset, read_bytes,
zero_bytes, writable)`. -/
structure supt_entry where
  upage : Nat
  file : Nat
  offset : Nat
  read_bytes : Nat
  zero_bytes : Nat
  writable : Bool
  deriving DecidableEq, Repr

/-- Modelled from the spec: the fields of `struct thread` (`threads/thread.h`)
that `syscall.c` uses.  `pagedir` is the lookup `pagedir_get_page (pagedir, _)`,
`0` being `NULL`; `supt` lists the entries installed in the supplemental page
table. -/
structure thread where
  tid : Int
  parent_id : Int
  children : List child_status
  child_load_status : Int
  pagedir : Nat → Nat
  file_descriptors : List file_desc
  mmap_list : List mmap_desc
  supt : List supt_entry

/-- The calls `syscall.c` makes to its collaborators, in the order it makes
them. -/
inductive Event
  | lock_acquire_fs_lock
  | lock_release_fs_lock
  | filesys_create (file_name size : Nat)
  | filesys_remove (file_name : Nat)
  | filesys_open (file_name : Nat)
  | file_read (file buffer size : Nat)
  | file_write (file buffer size : Nat)
  | file_close (file : Nat)
  | file_reopen (file : Nat)
  | file_length (file : Nat)
  | putbuf (bytes : List Nat)
  | process_execute (cmd_line : Nat)
  | lock_acquire_lock_child (tid : Int)
  | lock_release_lock_child (tid : Int)
  | cond_wait
  | printf_exit (tid : Int) (status : Int)
  | thread_exit
  | vm_supt_mm_unmap (upage file offset bytes : Nat)
  deriving DecidableEq, Repr

/-- The event takes the filesystem lock or calls into the filesystem. -/
def Event.is_filesys : Event → Bool
  | .lock_acquire_fs_lock => true
  | .lock_release_fs_lock => true
  | .filesys_create _ _ => true
  | .filesys_remove _ => true
  | .filesys_open _ => true
  | .file_read _ _ _ => true
  | .file_write _ _ _ => true
  | .file_close _ => true
  | .file_reopen _ => true
  | .file_length _ => true
  | _ => false

/-- The kernel state `syscall.c` reads and writes. -/
structure Kernel where
  /-- The global list `open_files`, front to back. -/
  open_files : List file_descriptor
  /-- The static counter `fd_current` of `allocate_fd`. -/
  fd_current : Int
  /-- The running thread, `thread_current ()`. -/
  cur : thread
  /-- The other threads. -/
  others : List thread
  /-- The bytes of the user address space of the running thread. -/
  mem : Nat → Nat
  /-- The collaborator calls made so far. -/
  trace : List Event

/-- What the collaborators answer during one system call. -/
structure Env where
  filesys_create : Nat → Nat → Bool
  filesys_remove : Nat → Bool
  /-- The address of the opened file, `0` for `NULL`. -/
  filesys_open : Nat → Nat
  /-- The result of `file_read` and the user memory after it. -/
  file_read : Nat → Nat → Nat → (Nat → Nat) → Int × (Nat → Nat)
  file_write : Nat → Nat → Nat → Int
  /-- The address of the reopened file, `0` for `NULL`. -/
  file_reopen : Nat → Nat
  file_length : Nat → Nat
  process_execute : Nat → Int
  /-- The values of `cur->child_load_status` each time `exec` tests it. -/
  child_load_status : List Int
  /-- The characters `input_getc` returns, in order. -/
  input_getc : Nat → Nat
  /-- Whether `calloc` and `malloc` return a non-null pointer. -/
  malloc_ok : Bool
  /-- The word found where `fd_num` would be if the tail sentinel of
  `open_files` were the `elem` of a `struct file_descriptor`. -/
  tail_fd_num : Int

/-- How a system call ends. -/
inductive Outcome (α : Type)
  /-- The handler returns `v`. -/
  | ret (v : α)
  /-- The process is terminated through `exit (status)`. -/
  | exited (status : Int)
  /-- The kernel stops. -/
  | fatal (e : Fatal)
  /-- A signed addition overflows, which C leaves undefined. -/
  | undefined
  /-- The thread waits for ever. -/
  | blocked
  deriving DecidableEq, Repr

/-- Append one event to the trace. -/
def Kernel.log (k : Kernel) (e : Event) : Kernel := { k with trace := k.trace ++ [e] }

/-- `INT_MAX`. -/
def INT_MAX : Int := 2 ^ 31 - 1

/-- Conversion of an `unsigned` to `int`. -/
def to_int (n : Nat) : Int :=
  if n % 2 ^ 32 < 2 ^ 31 then (n % 2 ^ 32 : Nat) else ((n % 2 ^ 32 : Nat) : Int) - 2 ^ 32

/-- `STDIN_FILENO`. -/
def STDIN_FILENO : Int := 0

/-- `STDOUT_FILENO`. -/
def STDOUT_FILENO : Int := 1

/-- Modelled from the spec: `is_user_vaddr` of `threads/vaddr.h` ("strictly
below the kernel/user address-space boundary"). -/
def is_user_vaddr (c : Params) (vaddr : Nat) : Bool := decide (vaddr < c.PHYS_BASE)

/-- Modelled from the spec: `pg_ofs` of `threads/vaddr.h`, the offset of an
address in its page; it is `0` exactly for a page-aligned address. -/
def pg_ofs (c : Params) (va : Nat) : Nat := va % c.PGSIZE

/-- Modelled from the spec: `thread_get_by_id` of `threads/thread.c` ("lookup by
id"). -/
def thread_get_by_id (k : Kernel) (id : Int) : Option thread :=
  if k.cur.tid = id then some k.cur else k.others.find? (fun t => decide (t.tid = id))

/-- Store `children` in the thread whose id is `id`. -/
def Kernel.set_children (k : Kernel) (id : Int) (children : List child_status) : Kernel :=
  if k.cur.tid = id then { k with cur := { k.cur with children := children } }
  else { k with
    others := k.others.map (fun t => if t.tid = id then { t with children := children } else t) }

/-! ## `src/userprog/syscall.c`: functions -/

/-- `syscall_init`: `list_init (&open_files)`.  The counter `fd_current` keeps
its static initial value, which is `1`. -/
def syscall_init (k : Kernel) : Kernel := { k with open_files := [] }

/-- The record `exit` writes into a child-status entry of the parent. -/
def exit_mark (tid status : Int) (ch : child_status) : child_status :=
  if ch.child_id = tid then
    { ch with is_exit_called := true, child_exit_status := status }
  else ch

/-- The lock operations of the loop of `exit`, which walks the children of the
parent from the back. -/
def exit_events (parent_tid tid : Int) (children : List child_status) : List Event :=
  (children.reverse.filter (fun ch => decide (ch.child_id = tid))).flatMap
    (fun _ => [Event.lock_acquire_lock_child parent_tid, Event.lock_release_lock_child parent_tid])

/-- `exit (status)`: prints the exit message, records the status in the entry
the parent keeps for the running thread, and ends the thread. -/
def exit {α : Type} (k : Kernel) (status : Int) : Kernel × Outcome α :=
  let k1 := k.log (.printf_exit k.cur.tid status)
  match thread_get_by_id k1 k1.cur.parent_id with
  | some parent =>
    let k2 := k1.set_children parent.tid (parent.children.map (exit_mark k1.cur.tid status))
    ({ k2 with trace := k2.trace ++ exit_events parent.tid k1.cur.tid parent.children
                          ++ [Event.thread_exit] },
      .exited status)
  | none => (k1.log .thread_exit, .exited status)

/-- `is_valid_ptr (usr_ptr)`. -/
def is_valid_ptr (c : Params) (k : Kernel) (usr_ptr : Nat) : Bool :=
  if usr_ptr ≠ 0 ∧ is_user_vaddr c usr_ptr = true then
    decide (k.cur.pagedir usr_ptr ≠ 0)
  else false

/-- The loop of `exec`: the first value of `child_load_status` that is not `0`,
and the number of `cond_wait` calls before it. -/
def exec_wait : List Int → Nat → Option (Int × Nat)
  | [], _ => none
  | v :: vs, n => if v = 0 then exec_wait vs (n + 1) else some (v, n)

/-- `exec (cmd_line)`. -/
def exec (c : Params) (env : Env) (k : Kernel) (cmd_line : Nat) : Kernel × Outcome Int :=
  if !is_valid_ptr c k cmd_line then exit k (-1)
  else
    let k1 := { k with cur := { k.cur with child_load_status := 0 } }
    let tid := env.process_execute cmd_line
    let k2 := (k1.log (.process_execute cmd_line)).log (.lock_acquire_lock_child k.cur.tid)
    match exec_wait env.child_load_status 0 with
    | none => (k2, .blocked)
    | some (v, n) =>
      let k3 := { k2 with cur := { k2.cur with child_load_status := v },
                          trace := k2.trace ++ List.replicate n Event.cond_wait }
      let tid1 := if v = -1 then -1 else tid
      (k3.log (.lock_release_lock_child k.cur.tid), .ret tid1)

/-- `create (file_name, size)`. -/
def create (c : Params) (env : Env) (k : Kernel) (file_name size : Nat) :
    Kernel × Outcome Bool :=
  if !is_valid_ptr c k file_name then exit k (-1)
  else
    let k1 := k.log .lock_acquire_fs_lock
    let status := env.filesys_create file_name size
    let k2 := k1.log (.filesys_create file_name size)
    (k2.log .lock_release_fs_lock, .ret status)

/-- `remove (file_name)`. -/
def remove (c : Params) (env : Env) (k : Kernel) (file_name : Nat) : Kernel × Outcome Bool :=
  if !is_valid_ptr c k file_name then exit k (-1)
  else
    let k1 := k.log .lock_acquire_fs_lock
    let status := env.filesys_remove file_name
    let k2 := k1.log (.filesys_remove file_name)
    (k2.log .lock_release_fs_lock, .ret status)

/-- `allocate_fd`: `return ++fd_current;`.  There is no result when the
increment overflows. -/
def allocate_fd (k : Kernel) : Option (Int × Kernel) :=
  if k.fd_current < INT_MAX then
    some (k.fd_current + 1, { k with fd_current := k.fd_current + 1 })
  else none

/-- `open (file_name)`.  The record comes from `calloc`, whose result is not
tested: `fd->fd_num = allocate_fd ()` calls `allocate_fd` and then stores
through the pointer. -/
def «open» (c : Params) (env : Env) (k : Kernel) (file_name : Nat) : Kernel × Outcome Int :=
  if !is_valid_ptr c k file_name then exit k (-1)
  else
    let k1 := k.log .lock_acquire_fs_lock
    let f := env.filesys_open file_name
    let k2 := k1.log (.filesys_open file_name)
    if f ≠ 0 then
      match allocate_fd k2 with
      | none => (k2, .undefined)
      | some (fd_num, k3) =>
        if env.malloc_ok then
          let fd : file_descriptor := file_descriptor.mk fd_num k3.cur.tid f
          let k4 := { k3 with open_files := k3.open_files ++ [fd] }
          (k4.log .lock_release_fs_lock, .ret fd.fd_num)
        else (k3, .fatal .panic_null_deref)
    else (k2.log .lock_release_fs_lock, .ret (-1))

/-- `get_open_file (fd)`: walks `open_files` from the back and returns the first
descriptor met whose number is `fd`. -/
def get_open_file (k : Kernel) (fd : Int) : Option file_descriptor :=
  k.open_files.reverse.find? (fun d => decide (d.fd_num = fd))

/-- The loop of `close_open_file` over the elements of the list, last element
first: the descriptor removed and the elements that stay, or `none`. -/
def close_open_file_scan (fd : Int) :
    List file_descriptor → Option (file_descriptor × List file_descriptor)
  | [] => none
  | d :: prev =>
    if d.fd_num = fd then some (d, prev)
    else
      match close_open_file_scan fd prev with
      | some (x, rest) => some (x, d :: rest)
      | none => none

/-- `close_open_file (fd)`.  The loop starts at `list_end (&open_files)`, the
tail sentinel, and reads a descriptor number through it before it reaches the
last element; when that word equals `fd`, `list_remove` is called on the
sentinel and its assertion fails. -/
def close_open_file (env : Env) (k : Kernel) (fd : Int) : Kernel × Outcome Unit :=
  if env.tail_fd_num = fd then (k, .fatal .panic_list_sentinel)
  else
    match close_open_file_scan fd k.open_files.reverse with
    | some (d, rest) =>
      (({ k with open_files := rest.reverse }).log (.file_close d.file_struct), .ret ())
    | none => (k, .ret ())

/-- `close (fd)`. -/
def close (env : Env) (k : Kernel) (fd : Int) : Kernel × Outcome Unit :=
  let k1 := k.log .lock_acquire_fs_lock
  match get_open_file k1 fd with
  | some fd_struct =>
    if fd_struct.owner = k1.cur.tid then
      match close_open_file env k1 fd with
      | (k2, .ret _) => (k2.log .lock_release_fs_lock, .ret ())
      | (k2, o) => (k2, o)
    else (k1.log .lock_release_fs_lock, .ret ())
  | none => (k1.log .lock_release_fs_lock, .ret ())

/-- The loop of `close_file_by_owner`: `kept` are the elements before the
cursor that stay in the list, the second list starts at the cursor `e`. -/
def close_file_by_owner_loop (tid : Int) :
    List file_descriptor → List file_descriptor → List Event →
      List file_descriptor × List Event
  | kept, [], trace => (kept, trace)
  | kept, fd_struct :: next, trace =>
    if fd_struct.owner = tid then
      close_file_by_owner_loop tid kept next (trace ++ [Event.file_close fd_struct.file_struct])
    else close_file_by_owner_loop tid (kept ++ [fd_struct]) next trace

/-- `close_file_by_owner (tid)`. -/
def close_file_by_owner (k : Kernel) (tid : Int) : Kernel :=
  let r := close_file_by_owner_loop tid [] k.open_files k.trace
  { k with open_files := r.1, trace := r.2 }

/-- The keyboard loop of `read`:
`while (counter > 1 && (c = input_getc ()) != 0) { *buf = c; buffer++; counter--; }`.
The arguments are `counter`, `buffer`, the number of characters taken from the
input so far and the user memory; `buf` does not change. -/
def read_stdin_loop (env : Env) (buf : Nat) :
    Nat → Nat → Nat → (Nat → Nat) → Nat × Nat × Nat × (Nat → Nat)
  | n + 2, buffer, taken, mem =>
    let ch := env.input_getc taken % 256
    if ch ≠ 0 then
      read_stdin_loop env buf (n + 1) ((buffer + 1) % 2 ^ 32) (taken + 1)
        (fun a => if a = buf then ch else mem a)
    else (n + 2, buffer, taken + 1, mem)
  | counter, buffer, taken, mem => (counter, buffer, taken, mem)

/-- `read (fd, buffer, size)`. -/
def read (c : Params) (env : Env) (k : Kernel) (fd : Int) (buffer size : Nat) :
    Kernel × Outcome Int :=
  if !is_valid_ptr c k buffer || !is_valid_ptr c k ((buffer + size + (2 ^ 32 - 1)) % 2 ^ 32) then
    exit k (-1)
  else
    let k1 := k.log .lock_acquire_fs_lock
    if fd = STDOUT_FILENO then (k1.log .lock_release_fs_lock, .ret (-1))
    else if fd = STDIN_FILENO then
      let r := read_stdin_loop env buffer size buffer 0 k1.mem
      let counter := r.1
      let mem1 := r.2.2.2
      let k2 := { k1 with mem := fun a => if a = buffer then 0 else mem1 a }
      (k2.log .lock_release_fs_lock, .ret (to_int (size + (2 ^ 32 - counter))))
    else
      match get_open_file k1 fd with
      | some fd_struct =>
        let r := env.file_read fd_struct.file_struct buffer size k1.mem
        let k2 := { k1 with mem := r.2 }
        ((k2.log (.file_read fd_struct.file_struct buffer size)).log .lock_release_fs_lock,
          .ret r.1)
      | none => (k1.log .lock_release_fs_lock, .ret 0)

/-- `write (fd, buffer, size)`. -/
def write (c : Params) (env : Env) (k : Kernel) (fd : Int) (buffer size : Nat) :
    Kernel × Outcome Int :=
  if !is_valid_ptr c k buffer || !is_valid_ptr c k ((buffer + size + (2 ^ 32 - 1)) % 2 ^ 32) then
    exit k (-1)
  else
    let k1 := k.log .lock_acquire_fs_lock
    if fd = STDIN_FILENO then (k1.log .lock_release_fs_lock, .ret (-1))
    else if fd = STDOUT_FILENO then
      let k2 := k1.log (.putbuf ((List.range size).map (fun i => k1.mem (buffer + i))))
      (k2.log .lock_release_fs_lock, .ret (to_int size))
    else
      match get_open_file k1 fd with
      | some fd_struct =>
        let status := env.file_write fd_struct.file_struct buffer size
        ((k1.log (.file_write fd_struct.file_struct buffer size)).log .lock_release_fs_lock,
          .ret status)
      | none => (k1.log .lock_release_fs_lock, .ret 0)

/-! ### Memory-mapped files -/

/-- `FD_FILE` of `enum fd_search_filter`. -/
def FD_FILE : Nat := 1

/-- `FD_DIRECTORY` of `enum fd_search_filter`. -/
def FD_DIRECTORY : Nat := 2

/-- The loop of `find_file_desc` over `t->file_descriptors`. -/
def find_file_desc_loop (fd : Int) (flag : Nat) : List file_desc → Option file_desc
  | [] => none
  | desc :: rest =>
    if desc.id = fd then
      if desc.dir ≠ 0 ∧ flag &&& FD_DIRECTORY ≠ 0 then some desc
      else if desc.dir = 0 ∧ flag &&& FD_FILE ≠ 0 then some desc
      else find_file_desc_loop fd flag rest
    else find_file_desc_loop fd flag rest

/-- `find_file_desc (t, fd, flag)`. -/
def find_file_desc (t : thread) (fd : Int) (flag : Nat) : Option file_desc :=
  if fd < 3 then none else find_file_desc_loop fd flag t.file_descriptors

/-- `find_mmap_desc (t, mid)`: the first mapping of the thread whose id is `mid`. -/
def find_mmap_desc (t : thread) (mid : Int) : Option mmap_desc :=
  t.mmap_list.find? (fun desc => decide (desc.id = mid))

/-- Modelled from the spec: `vm_supt_install_filesys` of `vm/page.c`
("installs one lazily-populated, file-backed, writable virtual-memory entry"):
the entry is added to the table. -/
def vm_supt_install_filesys (supt : List supt_entry) (upage file offset read_bytes
    zero_bytes : Nat) (writable : Bool) : List supt_entry :=
  supt ++ [⟨upage, file, offset, read_bytes, zero_bytes, writable⟩]

/-- The mapping loop of `sys_mmap`,
`for (offset = 0; offset < file_size; offset += PGSIZE)`, started at `offset`
with `n` an upper bound on the iterations left.  A file length is an `off_t`, so
`offset + PGSIZE` does not wrap. -/
def sys_mmap_loop (c : Params) (upage f file_size : Nat) :
    Nat → Nat → List supt_entry → List supt_entry
  | 0, _, supt => supt
  | n + 1, offset, supt =>
    if offset < file_size then
      let addr := (upage + offset) % 2 ^ 32
      let read_bytes := if offset + c.PGSIZE < file_size then c.PGSIZE else file_size - offset
      let zero_bytes := c.PGSIZE - read_bytes
      sys_mmap_loop c upage f file_size n (offset + c.PGSIZE)
        (vm_supt_install_filesys supt addr f offset read_bytes zero_bytes true)
    else supt

/-- Step 1 of `sys_mmap`, "Open file": the address of the reopened file, `0`
when there is none, and the kernel afterwards. -/
def sys_mmap_open_file (env : Env) (k : Kernel) (fd : Int) : Nat × Kernel :=
  match find_file_desc k.cur fd FD_FILE with
  | some file_d =>
    if file_d.file ≠ 0 then (env.file_reopen file_d.file, k.log (.file_reopen file_d.file))
    else (0, k)
  | none => (0, k)

/-- Step 3 of `sys_mmap`, "Assign mmapid": the id is one more than the id of
the last mapping in the list of the thread, or `1` when the list is empty; the
new mapping goes to the back of the list.  There is no result when the
addition overflows. -/
def sys_mmap_assign (env : Env) (k : Kernel) (f upage file_size : Nat) :
    Kernel × Outcome Int :=
  let next : Option Int :=
    match k.cur.mmap_list.getLast? with
    | some back => if back.id < INT_MAX then some (back.id + 1) else none
    | none => some 1
  match next with
  | none => (k, .undefined)
  | some mid =>
    if env.malloc_ok then
      let mmap_d : mmap_desc := mmap_desc.mk mid f upage file_size
      let k1 := { k with cur := { k.cur with mmap_list := k.cur.mmap_list ++ [mmap_d] } }
      (k1.log .lock_release_fs_lock, .ret mid)
    else (k, .fatal .panic_null_deref)

/-- Step 2 of `sys_mmap`, "Mapping memory pages": one entry per page of the file
is installed in the supplemental page table of the thread. -/
def sys_mmap_map_pages (c : Params) (k : Kernel) (f upage file_size : Nat) : Kernel :=
  { k with cur := { k.cur with
      supt := sys_mmap_loop c upage f file_size file_size 0 k.cur.supt } }

/-- `sys_mmap (fd, upage)`. -/
def sys_mmap (c : Params) (env : Env) (k : Kernel) (fd : Int) (upage : Nat) :
    Kernel × Outcome Int :=
  if upage = 0 ∨ pg_ofs c upage ≠ 0 then (k, .ret (-1))
  else if fd ≤ 1 then (k, .ret (-1))
  else
    let k1 := k.log .lock_acquire_fs_lock
    let r := sys_mmap_open_file env k1 fd
    let f := r.1
    let k2 := r.2
    if f = 0 then (k2.log .lock_release_fs_lock, .ret (-1))
    else
      let file_size := env.file_length f
      let k3 := k2.log (.file_length f)
      if file_size = 0 then (k3.log .lock_release_fs_lock, .ret (-1))
      else sys_mmap_assign env (sys_mmap_map_pages c k3 f upage file_size) f upage file_size

/-- Modelled from the spec: the effect of `vm_supt_mm_unmap` of `vm/page.c` on
the table ("write back any modified content to the backing file and release the
page"): the entry of the page is gone. -/
def vm_supt_mm_unmap (supt : List supt_entry) (upage : Nat) : List supt_entry :=
  supt.filter (fun e => decide (e.upage ≠ upage))

/-- The loop of `sys_munmap` over the pages of a mapping, started at `offset`
with `n` an upper bound on the iterations left. -/
def sys_munmap_loop (c : Params) (mmap_d : mmap_desc) :
    Nat → Nat → List supt_entry × List Event → List supt_entry × List Event
  | 0, _, r => r
  | n + 1, offset, r =>
    if offset < mmap_d.size then
      let addr := (mmap_d.addr + offset) % 2 ^ 32
      let bytes := if offset + c.PGSIZE < mmap_d.size then c.PGSIZE else mmap_d.size - offset
      sys_munmap_loop c mmap_d n (offset + c.PGSIZE)
        (vm_supt_mm_unmap r.1 addr,
          r.2 ++ [Event.vm_supt_mm_unmap addr mmap_d.file offset bytes])
    else r

/-- `sys_munmap (mid)`. -/
def sys_munmap (c : Params) (k : Kernel) (mid : Int) : Kernel × Outcome Bool :=
  match find_mmap_desc k.cur mid with
  | none => (k, .ret false)
  | some mmap_d =>
    let k1 := k.log .lock_acquire_fs_lock
    let r := sys_munmap_loop c mmap_d mmap_d.size 0 (k1.cur.supt, k1.trace)
    let k2 := { k1 with
      cur := { k1.cur with
        supt := r.1,
        mmap_list := k1.cur.mmap_list.eraseP (fun desc => decide (desc.id = mid)) },
      trace := r.2 }
    ((k2.log (.file_close mmap_d.file)).log .lock_release_fs_lock, .ret true)

/-! ### Properties of a call and concrete states -/

/-- The call that took the kernel from `k` to `r.1` ended in `exit (-1)`, and on
the way it neither took the filesystem lock, nor called the filesystem, nor
changed the open-file list or the descriptor counter. -/
def terminated_before_filesys {α : Type} (k : Kernel) (r : Kernel × Outcome α) : Prop :=
  r.2 = .exited (-1) ∧ r.1.open_files = k.open_files ∧ r.1.fd_current = k.fd_current ∧
    ∃ evs, r.1.trace = k.trace ++ evs ∧ ∀ e ∈ evs, e.is_filesys = false

/-- The states a kernel goes through after `syscall_init` when threads call
`open`, `close` and `close_file_by_owner` in any order; `switch` lets another
thread run, with its own address space. -/
inductive Reachable (c : Params) : Kernel → Prop
  | init (k : Kernel) (h : k.fd_current = 1) : Reachable c (syscall_init k)
  | switch (k : Kernel) (cur : thread) (others : List thread) (mem : Nat → Nat) :
      Reachable c k → Reachable c { k with cur := cur, others := others, mem := mem }
  | «open» (env : Env) (k : Kernel) (file_name : Nat) :
      Reachable c k → Reachable c («open» c env k file_name).1
  | close (env : Env) (k : Kernel) (fd : Int) :
      Reachable c k → Reachable c (close env k fd).1
  | close_file_by_owner (k : Kernel) (tid : Int) :
      Reachable c k → Reachable c (close_file_by_owner k tid)

/-- The ids successful `sys_mmap` calls have returned, after one more call that
ended with `o`; a call is successful when it returns something else than `-1`. -/
def mmap_returned (ids : List Int) : Outcome Int → List Int
  | .ret mid => if mid = -1 then ids else ids ++ [mid]
  | _ => ids

/-- The states of one process that starts without mappings and calls `sys_mmap`
and `sys_munmap` in any order, together with the ids its successful `sys_mmap`
calls have returned so far, oldest first. -/
inductive MmapReachable (c : Params) : List Int → Kernel → Prop
  | start (k : Kernel) (h : k.cur.mmap_list = []) : MmapReachable c [] k
  | sys_mmap (env : Env) (ids : List Int) (k : Kernel) (fd : Int) (upage : Nat) :
      MmapReachable c ids k →
      MmapReachable c (mmap_returned ids (sys_mmap c env k fd upage).2)
        (sys_mmap c env k fd upage).1
  | sys_munmap (ids : List Int) (k : Kernel) (mid : Int) :
      MmapReachable c ids k → MmapReachable c ids (sys_munmap c k mid).1

/-- A thread with id `5` whose only mapped user page starts at `0x8048000` and
whose own descriptor `3` is the file at address `77`. -/
def demo_thread : thread :=
  { tid := 5, parent_id := 1, children := [], child_load_status := 0,
    pagedir := fun a => if 0x8048000 ≤ a ∧ a < 0x8049000 then 0xc0100000 else 0,
    file_descriptors := [file_desc.mk 3 77 0], mmap_list := [], supt := [] }

/-- The kernel right after `syscall_init`, running `demo_thread`. -/
def demo_kernel : Kernel :=
  { open_files := [], fd_current := 1, cur := demo_thread, others := [],
    mem := fun _ => 0, trace := [] }

/-- Collaborators for which every call succeeds; files are `5000` bytes long
and the keyboard delivers `A`, `B`, `C` and then `0`. -/
def demo_env : Env :=
  { filesys_create := fun _ _ => true, filesys_remove := fun _ => true,
    filesys_open := fun _ => 900, file_read := fun _ _ _ m => (0, m),
    file_write := fun _ _ _ => 0, file_reopen := fun f => f + 1,
    file_length := fun _ => 5000, process_execute := fun _ => 9,
    child_load_status := [0, 1], input_getc := fun i => if i < 3 then 65 + i else 0,
    malloc_ok := true, tail_fd_num := 0 }

/-- An open-file list with one descriptor, number `2`, owned by thread `7`. -/
def demo_kernel_foreign : Kernel :=
  { demo_kernel with open_files := [file_descriptor.mk 2 7 900], fd_current := 2 }

/-- The kernel `demo_kernel` with every byte of user memory equal to `7`. -/
def demo_kernel_dirty : Kernel := { demo_kernel with mem := fun _ => 7 }

/-- The kernel after thread `5` has opened one file on `demo_kernel`: the
open-file list holds the descriptor with number `2`, owned by thread `5`. -/
def demo_kernel_opened : Kernel := («open» pintos demo_env demo_kernel 0x8048000).1

/-! ## Theorems -/

theorem bitmap_contains_one (b : List Bool) (i : Nat) (v : Bool) :
    bitmap_contains b i 1 v = (b[i]? == some v) := by
  simp [bitmap_contains, List.range_succ]

theorem bitmap_scan_loop_spec (b : List Bool) :
    ∀ (n i : Nat), i + n ≤ b.length → (∃ j, i ≤ j ∧ j < i + n ∧ b[j]? = some true) →
      i ≤ bitmap_scan_loop b 1 true n i ∧ bitmap_scan_loop b 1 true n i < i + n ∧
      b[bitmap_scan_loop b 1 true n i]? = some true ∧
      ∀ j, i ≤ j → j < bitmap_scan_loop b 1 true n i → b[j]? = some false := by
  intro n
  induction n with
  | zero =>
    rintro i _ ⟨j, h1, h2, _⟩
    omega
  | succ n ih =>
    rintro i hlen ⟨j, h1, h2, h3⟩
    have hi : i < b.length := by omega
    rw [bitmap_scan_loop, bitmap_contains_one]
    cases hv : b[i] with
    | false =>
      have hget : b[i]? = some false := by rw [List.getElem?_eq_getElem hi, hv]
      have hji : j ≠ i := by
        rintro rfl
        rw [hget] at h3
        cases h3
      simp only [hget, Bool.not_true, beq_self_eq_true, if_true]
      obtain ⟨a1, a2, a3, a4⟩ := ih (i + 1) (by omega) ⟨j, by omega, by omega, h3⟩
      refine ⟨by omega, by omega, a3, ?_⟩
      intro k hk1 hk2
      by_cases hki : k = i
      · rw [hki, hget]
      · exact a4 k (by omega) hk2
    | true =>
      have hget : b[i]? = some true := by rw [List.getElem?_eq_getElem hi, hv]
      simp only [hget, Bool.not_true]
      refine ⟨by simp, by simp, by simpa using hget, ?_⟩
      intro k hk1 hk2
      simp at hk2
      omega

theorem bitmap_scan_loop_none (b : List Bool) :
    ∀ (n i : Nat), i + n ≤ b.length → (∀ j, i ≤ j → j < i + n → b[j]? = some false) →
      bitmap_scan_loop b 1 true n i = BITMAP_ERROR := by
  intro n
  induction n with
  | zero => intro i _ _; rfl
  | succ n ih =>
    intro i hlen h
    rw [bitmap_scan_loop, bitmap_contains_one]
    have := h i (le_refl _) (by omega)
    simp only [this, Bool.not_true, beq_self_eq_true, if_true]
    exact ih (i + 1) (by omega) (fun j h1 h2 => h j (by omega) (by omega))


theorem bitmap_scan_first_free (b : List Bool) (h : true ∈ b) :
    bitmap_scan b 0 1 true < b.length ∧ b[bitmap_scan b 0 1 true]? = some true ∧
      ∀ j, j < bitmap_scan b 0 1 true → b[j]? = some false := by
  obtain ⟨j, hj, hget⟩ := List.getElem_of_mem h
  have hpos : 1 ≤ b.length := by omega
  have hj2 : b[j]? = some true := by rw [List.getElem?_eq_getElem hj, hget]
  have := bitmap_scan_loop_spec b (b.length - 1 + 1 - 0) 0 (by omega) ⟨j, by omega, by omega, hj2⟩
  simp only [bitmap_scan, hpos, if_true]
  obtain ⟨_, a2, a3, a4⟩ := this
  exact ⟨by omega, a3, fun k hk => a4 k (Nat.zero_le _) hk⟩

theorem bitmap_scan_full (b : List Bool) (h : true ∉ b) :
    bitmap_scan b 0 1 true = BITMAP_ERROR := by
  unfold bitmap_scan
  split
  · rename_i hpos
    apply bitmap_scan_loop_none b _ 0 (by omega)
    intro j _ hj
    have hjl : j < b.length := by omega
    rw [List.getElem?_eq_getElem hjl]
    cases hv : b[j] with
    | false => rfl
    | true => exact absurd (hv ▸ List.getElem_mem hjl) h
  · rfl

theorem swap_write_loop_spec (c : Params) (s : Nat) (bytes : Nat → Nat) :
    ∀ (n i : Nat) (b : block), s * SECTORS_PER_PAGE c + i + n ≤ b.size → b.size < 2 ^ 32 →
      ∃ b1, swap_write_loop c s bytes n i b = .ok b1 ∧ b1.size = b.size ∧
        ∀ sector off, b1.data sector off =
          if s * SECTORS_PER_PAGE c + i ≤ sector ∧ sector < s * SECTORS_PER_PAGE c + i + n ∧
              off < c.BLOCK_SECTOR_SIZE
          then bytes (c.BLOCK_SECTOR_SIZE * (sector - s * SECTORS_PER_PAGE c) + off)
          else b.data sector off := by
  intro n
  induction n with
  | zero =>
    intro i b _ _
    refine ⟨b, rfl, rfl, ?_⟩
    intro sector off
    rw [if_neg]
    omega
  | succ n ih =>
    intro i b hle hsz
    have hmod : (s * SECTORS_PER_PAGE c + i) % 2 ^ 32 = s * SECTORS_PER_PAGE c + i :=
      Nat.mod_eq_of_lt (by omega)
    have hlt : s * SECTORS_PER_PAGE c + i < b.size := by omega
    simp only [swap_write_loop, hmod, block_write, hlt, if_true]
    obtain ⟨b1, e1, e2, e3⟩ := ih (i + 1)
      { b with data := fun s1 off =>
          if s1 = s * SECTORS_PER_PAGE c + i ∧ off < c.BLOCK_SECTOR_SIZE
          then bytes (c.BLOCK_SECTOR_SIZE * i + off) else b.data s1 off }
      (by simp only; omega) (by simpa using hsz)
    refine ⟨b1, e1, by simpa using e2, ?_⟩
    intro sector off
    rw [e3]
    simp only
    by_cases h1 : sector = s * SECTORS_PER_PAGE c + i
    · subst h1
      by_cases h2 : off < c.BLOCK_SECTOR_SIZE
      · simp [h2]
      · simp [h2]
    · by_cases h2 : off < c.BLOCK_SECTOR_SIZE
      · by_cases h3 : s * SECTORS_PER_PAGE c + (i + 1) ≤ sector ∧ sector < s * SECTORS_PER_PAGE c + (i + 1) + n
        · have h4 : s * SECTORS_PER_PAGE c + i ≤ sector ∧ sector < s * SECTORS_PER_PAGE c + i + (n + 1) := by omega
          simp [h2, h3, h4]
        · have h4 : ¬ (s * SECTORS_PER_PAGE c + i ≤ sector ∧ sector < s * SECTORS_PER_PAGE c + i + (n + 1)) := by omega
          have h3a : ¬ (s * SECTORS_PER_PAGE c + (i + 1) ≤ sector ∧ sector < s * SECTORS_PER_PAGE c + (i + 1) + n ∧ off < c.BLOCK_SECTOR_SIZE) := fun h => h3 ⟨h.1, h.2.1⟩
          have h4a : ¬ (s * SECTORS_PER_PAGE c + i ≤ sector ∧ sector < s * SECTORS_PER_PAGE c + i + (n + 1) ∧ off < c.BLOCK_SECTOR_SIZE) := fun h => h4 ⟨h.1, h.2.1⟩
          rw [if_neg h3a, if_neg h4a, if_neg (fun h => h1 h.1)]
      · simp [h2]

theorem swap_read_loop_spec (c : Params) (s : Nat) (b : block) :
    ∀ (n i : Nat) (bytes : Nat → Nat), s * SECTORS_PER_PAGE c + i + n ≤ b.size →
      b.size < 2 ^ 32 →
      ∃ bytes1, swap_read_loop c s b n i bytes = .ok bytes1 ∧
        (∀ k off, i ≤ k → k < i + n → off < c.BLOCK_SECTOR_SIZE →
          bytes1 (c.BLOCK_SECTOR_SIZE * k + off) = b.data (s * SECTORS_PER_PAGE c + k) off) ∧
        (∀ a, a < c.BLOCK_SECTOR_SIZE * i → bytes1 a = bytes a) := by
  intro n
  induction n with
  | zero =>
    intro i bytes _ _
    exact ⟨bytes, rfl, fun k off h1 h2 _ => by omega, fun a _ => rfl⟩
  | succ n ih =>
    intro i bytes hle hsz
    have hmod : (s * SECTORS_PER_PAGE c + i) % 2 ^ 32 = s * SECTORS_PER_PAGE c + i :=
      Nat.mod_eq_of_lt (by omega)
    have hlt : s * SECTORS_PER_PAGE c + i < b.size := by omega
    simp only [swap_read_loop, hmod, block_read, hlt, if_true]
    obtain ⟨bytes1, e1, e2, e3⟩ := ih (i + 1)
      (fun a => if c.BLOCK_SECTOR_SIZE * i ≤ a ∧ a < c.BLOCK_SECTOR_SIZE * i + c.BLOCK_SECTOR_SIZE
        then b.data (s * SECTORS_PER_PAGE c + i) (a - c.BLOCK_SECTOR_SIZE * i) else bytes a)
      (by omega) hsz
    refine ⟨bytes1, e1, ?_, ?_⟩
    · intro k off h1 h2 h3
      by_cases hk : k = i
      · subst hk
        rw [e3 _ (by rw [Nat.mul_succ]; omega)]
        simp [h3]
      · exact e2 k off (by omega) (by omega) h3
    · intro a ha
      rw [e3 a (by rw [Nat.mul_succ]; omega)]
      rw [if_neg]
      omega

theorem SECTORS_PER_PAGE_mul (c : Params) (hc : c.WF) :
    c.BLOCK_SECTOR_SIZE * SECTORS_PER_PAGE c = c.PGSIZE :=
  Nat.mul_div_cancel' hc.2.2.1

theorem SECTORS_PER_PAGE_pos (c : Params) (hc : c.WF) : 0 < SECTORS_PER_PAGE c := by
  have h := SECTORS_PER_PAGE_mul c hc
  have h2 := hc.2.1
  rcases Nat.eq_zero_or_pos (SECTORS_PER_PAGE c) with h0 | h0
  · rw [h0] at h
    simp at h
    omega
  · exact h0

theorem swap_slot_sectors (c : Params) (st : swap_state) (hwf : st.WF c) (s : Nat)
    (hs : s < st.swap_size) :
    s * SECTORS_PER_PAGE c + SECTORS_PER_PAGE c ≤ st.swap_block.size := by
  obtain ⟨_, h2, _⟩ := hwf
  have h3 : (s + 1) * SECTORS_PER_PAGE c ≤ st.swap_size * SECTORS_PER_PAGE c :=
    Nat.mul_le_mul_right _ (by omega)
  have h4 : st.swap_size * SECTORS_PER_PAGE c ≤ st.swap_block.size := by
    rw [h2]
    exact Nat.div_mul_le_self _ _
  calc s * SECTORS_PER_PAGE c + SECTORS_PER_PAGE c = (s + 1) * SECTORS_PER_PAGE c := by
        rw [Nat.succ_mul]
    _ ≤ st.swap_block.size := le_trans h3 h4

theorem swap_slot_disjoint (n s t k : Nat) (hne : s ≠ t) (hk : k < n) :
    ¬ (t * n ≤ s * n + k ∧ s * n + k < t * n + n) := by
  rintro ⟨h1, h2⟩
  rcases Nat.lt_or_gt_of_ne hne with h | h
  · have h3 : (s + 1) * n ≤ t * n := Nat.mul_le_mul_right _ h
    rw [Nat.succ_mul] at h3
    omega
  · have h3 : (t + 1) * n ≤ s * n := Nat.mul_le_mul_right _ h
    rw [Nat.succ_mul] at h3
    omega

theorem vm_swap_out_spec (c : Params) (st : swap_state) (hwf : st.WF c)
    (page : Nat) (bytes : Nat → Nat) (hP : c.PHYS_BASE ≤ page)
    (hfree : true ∈ st.swap_available) :
    ∃ s st1, vm_swap_out c st page bytes = .ok (s, st1) ∧
      s = bitmap_scan st.swap_available 0 1 true ∧
      s < st.swap_size ∧ st.swap_available[s]? = some true ∧
      (∀ j, j < s → st.swap_available[j]? = some false) ∧
      st1.swap_available = st.swap_available.set s false ∧
      st1.swap_size = st.swap_size ∧
      st1.swap_block.size = st.swap_block.size ∧
      ∀ sector off, st1.swap_block.data sector off =
        if s * SECTORS_PER_PAGE c ≤ sector ∧ sector < s * SECTORS_PER_PAGE c + SECTORS_PER_PAGE c ∧
            off < c.BLOCK_SECTOR_SIZE
        then bytes (c.BLOCK_SECTOR_SIZE * (sector - s * SECTORS_PER_PAGE c) + off)
        else st.swap_block.data sector off := by
  obtain ⟨f1, f2, f3⟩ := bitmap_scan_first_free st.swap_available hfree
  have hs : bitmap_scan st.swap_available 0 1 true < st.swap_size := hwf.1 ▸ f1
  have hsec := swap_slot_sectors c st hwf _ hs
  obtain ⟨b1, e1, e2, e3⟩ := swap_write_loop_spec c (bitmap_scan st.swap_available 0 1 true)
    bytes (SECTORS_PER_PAGE c) 0 st.swap_block (by omega) hwf.2.2
  refine ⟨bitmap_scan st.swap_available 0 1 true,
    swap_state.mk b1 (st.swap_available.set (bitmap_scan st.swap_available 0 1 true) false)
      st.swap_size,
    ?_, rfl, hs, f2, f3, rfl, rfl, e2, ?_⟩
  · simp only [vm_swap_out, hP, if_true, e1, bitmap_set, f1]
  · intro sector off
    rw [e3]
    simp only [Nat.add_zero]

theorem vm_swap_out_full (c : Params) (st : swap_state) (hwf : st.WF c)
    (page : Nat) (bytes : Nat → Nat) (hfull : true ∉ st.swap_available) :
    ∃ e, vm_swap_out c st page bytes = .error e := by
  have hscan := bitmap_scan_full st.swap_available hfull
  have hlen : ¬ BITMAP_ERROR < st.swap_available.length := by
    have h1 : st.swap_size ≤ st.swap_block.size := by
      rw [hwf.2.1]
      exact Nat.div_le_self _ _
    have h2 := hwf.2.2
    have h3 := hwf.1
    have h4 : BITMAP_ERROR = 2 ^ 32 - 1 := rfl
    omega
  unfold vm_swap_out
  split
  · simp only [hscan]
    split
    · exact ⟨_, rfl⟩
    · simp only [bitmap_set, hlen, if_false]
      exact ⟨_, rfl⟩
  · exact ⟨_, rfl⟩

theorem vm_swap_in_spec (c : Params) (st : swap_state) (hwf : st.WF c) (s page : Nat)
    (bytes : Nat → Nat) (hP : c.PHYS_BASE ≤ page) (hs : s < st.swap_size)
    (hocc : st.swap_available[s]? = some false) :
    ∃ bytes1, vm_swap_in c st s page bytes =
        .ok ({ st with swap_available := st.swap_available.set s true }, bytes1) ∧
      ∀ k off, k < SECTORS_PER_PAGE c → off < c.BLOCK_SECTOR_SIZE →
        bytes1 (c.BLOCK_SECTOR_SIZE * k + off) =
          st.swap_block.data (s * SECTORS_PER_PAGE c + k) off := by
  have hsec := swap_slot_sectors c st hwf s hs
  obtain ⟨bytes1, e1, e2, _⟩ := swap_read_loop_spec c s st.swap_block (SECTORS_PER_PAGE c) 0
    bytes (by omega) hwf.2.2
  have hlen : s < st.swap_available.length := by rw [hwf.1]; exact hs
  refine ⟨bytes1, ?_, ?_⟩
  · simp only [vm_swap_in, hP, hs, if_true, bitmap_test, hocc, e1, bitmap_set, hlen]
  · intro k off hk hoff
    exact e2 k off (Nat.zero_le _) (by omega) hoff

theorem vm_swap_in_ok (c : Params) (st st1 : swap_state) (s page : Nat)
    (bytes bytes1 : Nat → Nat) (h : vm_swap_in c st s page bytes = .ok (st1, bytes1)) :
    st1 = { st with swap_available := st.swap_available.set s true } := by
  unfold vm_swap_in at h
  split at h
  · split at h
    · split at h
      · cases h
      · cases h
      · split at h
        · cases h
        · split at h
          · cases h
          · rename_i bm hbm
            simp only [bitmap_set] at hbm
            split at hbm
            · cases hbm
              cases h
              rfl
            · cases hbm
    · cases h
  · cases h

theorem vm_swap_free_ok (st st1 : swap_state) (s : Nat) (h : vm_swap_free st s = .ok st1) :
    st.swap_available[s]? = some true ∧ st1 = st := by
  unfold vm_swap_free at h
  split at h
  · split at h
    · cases h
    · cases h
    · rename_i htest
      have hget : st.swap_available[s]? = some true := by
        unfold bitmap_test at htest
        split at htest
        · rename_i v hv
          cases htest
          exact hv
        · cases htest
      have hlen : s < st.swap_available.length := by
        by_contra hcon
        rw [List.getElem?_eq_none (by omega)] at hget
        cases hget
      have hset : st.swap_available.set s true = st.swap_available := by
        apply List.ext_getElem?
        intro i
        by_cases hi : i = s
        · subst hi
          rw [List.getElem?_set_self hlen, hget]
        · rw [List.getElem?_set_ne (fun h => hi h.symm)]
      simp only [bitmap_set, hlen, if_true, hset] at h
      cases h
      exact ⟨hget, rfl⟩
  · cases h

/-- Slot `s` is occupied and holds the page `bytes`. -/
theorem swap_slot_kept (c : Params) (s : Nat) (bytes : Nat → Nat)
    (st st1 : swap_state) (op : swap_call) (hwf : st.WF c)
    (hocc : st.swap_available[s]? = some false)
    (hdata : ∀ k off, k < SECTORS_PER_PAGE c → off < c.BLOCK_SECTOR_SIZE →
      st.swap_block.data (s * SECTORS_PER_PAGE c + k) off = bytes (c.BLOCK_SECTOR_SIZE * k + off))
    (hop : ¬ op.consumes s) (hrun : op.run c st = .ok st1) :
    st1.WF c ∧ st1.swap_available[s]? = some false ∧
      ∀ k off, k < SECTORS_PER_PAGE c → off < c.BLOCK_SECTOR_SIZE →
        st1.swap_block.data (s * SECTORS_PER_PAGE c + k) off =
          bytes (c.BLOCK_SECTOR_SIZE * k + off) := by
  cases op with
  | out page bytes2 =>
    simp only [swap_call.run] at hrun
    by_cases hfree : true ∈ st.swap_available
    · by_cases hP : c.PHYS_BASE ≤ page
      · obtain ⟨t, st2, e1, _, e2, e3, _, e4, e5, e6, e7⟩ :=
          vm_swap_out_spec c st hwf page bytes2 hP hfree
        rw [e1] at hrun
        cases hrun
        have hne : s ≠ t := by
          rintro rfl
          rw [hocc] at e3
          cases e3
        refine ⟨⟨?_, ?_, ?_⟩, ?_, ?_⟩
        · rw [e4, List.length_set, e5]
          exact hwf.1
        · rw [e5, e6]
          exact hwf.2.1
        · rw [e6]
          exact hwf.2.2
        · rw [e4, List.getElem?_set_ne (fun h => hne h.symm)]
          exact hocc
        · intro k off hk hoff
          rw [e7, if_neg, hdata k off hk hoff]
          intro h
          exact swap_slot_disjoint _ s t k hne hk ⟨h.1, h.2.1⟩
      · simp only [vm_swap_out, hP, if_false] at hrun
        cases hrun
    · obtain ⟨e, he⟩ := vm_swap_out_full c st hwf page bytes2 hfree
      rw [he] at hrun
      cases hrun
  | inn t page bytes2 =>
    simp only [swap_call.run] at hrun
    have hne : t ≠ s := hop
    cases hres : vm_swap_in c st t page bytes2 with
    | error e =>
      rw [hres] at hrun
      cases hrun
    | ok r =>
      obtain ⟨st2, bytes3⟩ := r
      rw [hres] at hrun
      cases hrun
      have := vm_swap_in_ok c st st1 t page bytes2 bytes3 hres
      subst this
      refine ⟨⟨?_, hwf.2.1, hwf.2.2⟩, ?_, hdata⟩
      · simp only [List.length_set]
        exact hwf.1
      · simp only
        rw [List.getElem?_set_ne hne]
        exact hocc
  | free t =>
    simp only [swap_call.run] at hrun
    obtain ⟨_, h2⟩ := vm_swap_free_ok st st1 t hrun
    subst h2
    exact ⟨hwf, hocc, hdata⟩

theorem swap_slot_kept_calls (c : Params) (s : Nat) (bytes : Nat → Nat) :
    ∀ (ops : List swap_call) (st st1 : swap_state), st.WF c →
      st.swap_available[s]? = some false →
      (∀ k off, k < SECTORS_PER_PAGE c → off < c.BLOCK_SECTOR_SIZE →
        st.swap_block.data (s * SECTORS_PER_PAGE c + k) off =
          bytes (c.BLOCK_SECTOR_SIZE * k + off)) →
      (∀ op ∈ ops, ¬ op.consumes s) → swap_calls_run c ops st = .ok st1 →
      st1.WF c ∧ st1.swap_available[s]? = some false ∧
        ∀ k off, k < SECTORS_PER_PAGE c → off < c.BLOCK_SECTOR_SIZE →
          st1.swap_block.data (s * SECTORS_PER_PAGE c + k) off =
            bytes (c.BLOCK_SECTOR_SIZE * k + off) := by
  intro ops
  induction ops with
  | nil =>
    intro st st1 hwf hocc hdata _ hrun
    simp only [swap_calls_run] at hrun
    cases hrun
    exact ⟨hwf, hocc, hdata⟩
  | cons op ops ih =>
    intro st st1 hwf hocc hdata hops hrun
    simp only [swap_calls_run] at hrun
    cases hres : op.run c st with
    | error e =>
      rw [hres] at hrun
      cases hrun
    | ok st2 =>
      rw [hres] at hrun
      obtain ⟨a1, a2, a3⟩ := swap_slot_kept c s bytes st st2 op hwf hocc hdata
        (hops op (List.mem_cons_self _ _)) hres
      exact ih st2 st1 a1 a2 a3 (fun o ho => hops o (List.mem_cons_of_mem _ ho)) hrun

/-- Claim C1 (swap round trip).  In a well-formed swap state with a free slot,
`vm_swap_out` of a kernel page `P` returns a slot `s`; after any sequence of
further `vm_swap_out`, `vm_swap_in` and `vm_swap_free` calls that all complete
and none of which is a `vm_swap_in` or `vm_swap_free` on `s`, `vm_swap_in (s, D)`
into any kernel page `D` completes and every one of the `PGSIZE` bytes of `D`
equals the byte `P` held when it was swapped out. -/
theorem swap_round_trip (c : Params) (hc : c.WF) (st : swap_state) (hwf : st.WF c)
    (hfree : true ∈ st.swap_available) (P : Nat) (bytes : Nat → Nat)
    (hP : c.PHYS_BASE ≤ P) :
    ∃ s st1, vm_swap_out c st P bytes = .ok (s, st1) ∧
      ∀ (ops : List swap_call) (st2 : swap_state), (∀ op ∈ ops, ¬ op.consumes s) →
        swap_calls_run c ops st1 = .ok st2 →
        ∀ (D : Nat) (old : Nat → Nat), c.PHYS_BASE ≤ D →
          ∃ st3 bytes1, vm_swap_in c st2 s D old = .ok (st3, bytes1) ∧
            ∀ a, a < c.PGSIZE → bytes1 a = bytes a := by
  obtain ⟨s, st1, e1, _, e2, e3, _, e4, e5, e6, e7⟩ := vm_swap_out_spec c st hwf P bytes hP hfree
  refine ⟨s, st1, e1, ?_⟩
  intro ops st2 hops hrun D old hD
  have hlen : s < st.swap_available.length := by rw [hwf.1]; exact e2
  have hwf1 : st1.WF c := by
    refine ⟨?_, ?_, ?_⟩
    · rw [e4, List.length_set, e5]
      exact hwf.1
    · rw [e5, e6]
      exact hwf.2.1
    · rw [e6]
      exact hwf.2.2
  have hocc1 : st1.swap_available[s]? = some false := by
    rw [e4, List.getElem?_set_self hlen]
  have hdata1 : ∀ k off, k < SECTORS_PER_PAGE c → off < c.BLOCK_SECTOR_SIZE →
      st1.swap_block.data (s * SECTORS_PER_PAGE c + k) off =
        bytes (c.BLOCK_SECTOR_SIZE * k + off) := by
    intro k off hk hoff
    rw [e7, if_pos ⟨by omega, by omega, hoff⟩, Nat.add_sub_cancel_left]
  obtain ⟨hwf2, hocc2, hdata2⟩ :=
    swap_slot_kept_calls c s bytes ops st1 st2 hwf1 hocc1 hdata1 hops hrun
  have hs2 : s < st2.swap_size := by
    have h1 : s < st2.swap_available.length := by
      by_contra hcon
      rw [List.getElem?_eq_none (by omega)] at hocc2
      cases hocc2
    rw [← hwf2.1]
    exact h1
  obtain ⟨bytes1, r1, r2⟩ := vm_swap_in_spec c st2 hwf2 s D old hD hs2 hocc2
  refine ⟨_, bytes1, r1, ?_⟩
  intro a ha
  have hmul := SECTORS_PER_PAGE_mul c hc
  have hbs := hc.1
  have hk : a / c.BLOCK_SECTOR_SIZE < SECTORS_PER_PAGE c := by
    apply Nat.div_lt_of_lt_mul
    rw [hmul]
    exact ha
  have hoff : a % c.BLOCK_SECTOR_SIZE < c.BLOCK_SECTOR_SIZE := Nat.mod_lt _ hbs
  have hsplit : c.BLOCK_SECTOR_SIZE * (a / c.BLOCK_SECTOR_SIZE) + a % c.BLOCK_SECTOR_SIZE = a :=
    Nat.div_add_mod a c.BLOCK_SECTOR_SIZE
  have h1 := r2 _ _ hk hoff
  rw [hdata2 _ _ hk hoff, hsplit] at h1
  exact h1

theorem swap_demo_init : vm_swap_init pintos (some swap_demo_device) = .ok swap_demo := rfl

theorem pintos_WF : pintos.WF := by
  unfold Params.WF pintos
  norm_num

theorem swap_demo_WF : swap_demo.WF pintos := by
  unfold swap_state.WF
  exact ⟨rfl, rfl, by decide⟩

/-- The round trip on the two-slot swap state with the Pintos constants. -/
theorem swap_round_trip_witness :
    pintos.WF ∧ swap_demo.WF pintos ∧ true ∈ swap_demo.swap_available ∧
      pintos.PHYS_BASE ≤ 0xc0000000 ∧
      ∃ s st1, vm_swap_out pintos swap_demo 0xc0000000 (fun a => a % 256) = .ok (s, st1) ∧
        ∀ (ops : List swap_call) (st2 : swap_state), (∀ op ∈ ops, ¬ op.consumes s) →
          swap_calls_run pintos ops st1 = .ok st2 →
          ∀ (D : Nat) (old : Nat → Nat), pintos.PHYS_BASE ≤ D →
            ∃ st3 bytes1, vm_swap_in pintos st2 s D old = .ok (st3, bytes1) ∧
              ∀ a, a < pintos.PGSIZE → bytes1 a = (fun a => a % 256) a :=
  ⟨pintos_WF, swap_demo_WF, by decide, by decide,
    swap_round_trip pintos pintos_WF swap_demo swap_demo_WF (by decide) 0xc0000000
      (fun a => a % 256) (by decide)⟩

/-- Claim C4 (first fit).  In a well-formed swap state with a free slot,
`vm_swap_out` of a kernel page returns the lowest-numbered slot that was free
(so never an occupied one); afterwards that slot is occupied and its
`SECTORS_PER_PAGE` sectors hold the bytes of the page, while the bit and the
sectors of every other slot, the number of slots and the size of the device are
as before. -/
theorem vm_swap_out_first_fit (c : Params) (st : swap_state) (hwf : st.WF c)
    (hfree : true ∈ st.swap_available) (page : Nat) (bytes : Nat → Nat)
    (hP : c.PHYS_BASE ≤ page) :
    ∃ s st1, vm_swap_out c st page bytes = .ok (s, st1) ∧
      s < st.swap_size ∧ st.swap_available[s]? = some true ∧
      (∀ j, j < s → st.swap_available[j]? = some false) ∧
      st1.swap_available[s]? = some false ∧
      (∀ k off, k < SECTORS_PER_PAGE c → off < c.BLOCK_SECTOR_SIZE →
        st1.swap_block.data (s * SECTORS_PER_PAGE c + k) off =
          bytes (c.BLOCK_SECTOR_SIZE * k + off)) ∧
      (∀ j, j ≠ s → st1.swap_available[j]? = st.swap_available[j]?) ∧
      (∀ j k off, j ≠ s → k < SECTORS_PER_PAGE c →
        st1.swap_block.data (j * SECTORS_PER_PAGE c + k) off =
          st.swap_block.data (j * SECTORS_PER_PAGE c + k) off) ∧
      st1.swap_available.length = st.swap_available.length ∧
      st1.swap_size = st.swap_size ∧ st1.swap_block.size = st.swap_block.size := by
  obtain ⟨s, st1, e1, _, e2, e3, e3b, e4, e5, e6, e7⟩ :=
    vm_swap_out_spec c st hwf page bytes hP hfree
  have hlen : s < st.swap_available.length := by rw [hwf.1]; exact e2
  refine ⟨s, st1, e1, e2, e3, e3b, ?_, ?_, ?_, ?_, ?_, e5, e6⟩
  · rw [e4, List.getElem?_set_self hlen]
  · intro k off hk hoff
    rw [e7, if_pos ⟨by omega, by omega, hoff⟩, Nat.add_sub_cancel_left]
  · intro j hj
    rw [e4, List.getElem?_set_ne (fun h => hj h.symm)]
  · intro j k off hj hk
    rw [e7, if_neg]
    intro h
    exact swap_slot_disjoint _ j s k hj hk ⟨h.1, h.2.1⟩
  · rw [e4, List.length_set]

/-- First fit on the two-slot swap state with the Pintos constants. -/
theorem vm_swap_out_first_fit_witness :
    swap_demo.WF pintos ∧ true ∈ swap_demo.swap_available ∧ pintos.PHYS_BASE ≤ 0xc0000000 ∧
    ∃ s st1, vm_swap_out pintos swap_demo 0xc0000000 (fun a => a % 256) = .ok (s, st1) ∧
      s < swap_demo.swap_size ∧ swap_demo.swap_available[s]? = some true ∧
      (∀ j, j < s → swap_demo.swap_available[j]? = some false) ∧
      st1.swap_available[s]? = some false ∧
      (∀ k off, k < SECTORS_PER_PAGE pintos → off < pintos.BLOCK_SECTOR_SIZE →
        st1.swap_block.data (s * SECTORS_PER_PAGE pintos + k) off =
          (fun a => a % 256) (pintos.BLOCK_SECTOR_SIZE * k + off)) ∧
      (∀ j, j ≠ s → st1.swap_available[j]? = swap_demo.swap_available[j]?) ∧
      (∀ j k off, j ≠ s → k < SECTORS_PER_PAGE pintos →
        st1.swap_block.data (j * SECTORS_PER_PAGE pintos + k) off =
          swap_demo.swap_block.data (j * SECTORS_PER_PAGE pintos + k) off) ∧
      st1.swap_available.length = swap_demo.swap_available.length ∧
      st1.swap_size = swap_demo.swap_size ∧
      st1.swap_block.size = swap_demo.swap_block.size :=
  ⟨swap_demo_WF, by decide, by decide,
    vm_swap_out_first_fit pintos swap_demo swap_demo_WF (by decide) 0xc0000000
      (fun a => a % 256) (by decide)⟩

/-- Claim C2, evaluated on the code.  On the two-slot swap state right after
`vm_swap_init`, slot `0` is free; `vm_swap_free (0)` returns normally and leaves
the state as it was, whereas `vm_swap_in (0, page)` stops the kernel with the
panic for an unassigned slot. -/
theorem vm_swap_free_free_slot_returns :
    swap_demo.swap_available[0]? = some true ∧ vm_swap_free swap_demo 0 = .ok swap_demo ∧
      vm_swap_in pintos swap_demo 0 0xc0000000 (fun _ => 0)
        = .error .panic_read_unassigned :=
  ⟨rfl, rfl, rfl⟩

/-- Claim C3, evaluated on the code.  After `vm_swap_out` has handed out slot
`0` of the two-slot swap state, the slot is occupied and `vm_swap_free (0)` stops
the kernel with its panic instead of returning. -/
theorem vm_swap_free_occupied_slot_panics :
    ∃ st1, vm_swap_out pintos swap_demo 0xc0000000 (fun a => a % 256) = .ok (0, st1) ∧
      st1.swap_available[0]? = some false ∧
      vm_swap_free st1 0 = .error .panic_free_unassigned :=
  ⟨_, rfl, rfl, rfl⟩

theorem is_valid_ptr_bad (c : Params) (k : Kernel) (ptr : Nat)
    (h : ptr = 0 ∨ c.PHYS_BASE ≤ ptr ∨ k.cur.pagedir ptr = 0) :
    is_valid_ptr c k ptr = false := by
  unfold is_valid_ptr is_user_vaddr
  rcases h with h | h | h
  · simp [h]
  · have : ¬ ptr < c.PHYS_BASE := by omega
    simp [this]
  · simp [h]

theorem set_children_open_files (k : Kernel) (id : Int) (l : List child_status) :
    (k.set_children id l).open_files = k.open_files ∧
      (k.set_children id l).fd_current = k.fd_current ∧
      (k.set_children id l).trace = k.trace := by
  unfold Kernel.set_children
  split <;> exact ⟨rfl, rfl, rfl⟩

theorem exit_events_not_filesys (p t : Int) (l : List child_status) :
    ∀ e ∈ exit_events p t l, e.is_filesys = false := by
  intro e he
  unfold exit_events at he
  rw [List.mem_flatMap] at he
  obtain ⟨_, _, h⟩ := he
  simp only [List.mem_cons, List.mem_singleton, List.not_mem_nil, or_false] at h
  rcases h with h | h <;> subst h <;> rfl

theorem exit_spec {α : Type} (k : Kernel) (status : Int) :
    (exit k status : Kernel × Outcome α).2 = .exited status ∧
      (exit k status : Kernel × Outcome α).1.open_files = k.open_files ∧
      (exit k status : Kernel × Outcome α).1.fd_current = k.fd_current ∧
      ∃ evs, (exit k status : Kernel × Outcome α).1.trace = k.trace ++ evs ∧
        ∀ e ∈ evs, e.is_filesys = false := by
  simp only [exit]
  cases hp : thread_get_by_id (k.log (.printf_exit k.cur.tid status))
      (k.log (.printf_exit k.cur.tid status)).cur.parent_id with
  | some parent =>
    obtain ⟨h1, h2, h3⟩ := set_children_open_files (k.log (.printf_exit k.cur.tid status))
      parent.tid (parent.children.map (exit_mark (k.log (.printf_exit k.cur.tid status)).cur.tid status))
    refine ⟨rfl, ?_, ?_, ?_⟩
    · simp only [h1]
      rfl
    · simp only [h2]
      rfl
    · refine ⟨[Event.printf_exit k.cur.tid status] ++
        exit_events parent.tid k.cur.tid parent.children ++ [Event.thread_exit], ?_, ?_⟩
      · simp only [h3]
        simp only [Kernel.log, List.append_assoc]
      · intro e he
        simp only [List.mem_append, List.mem_singleton] at he
        rcases he with (he | he) | he
        · subst he; rfl
        · exact exit_events_not_filesys _ _ _ e he
        · subst he; rfl
  | none =>
    refine ⟨rfl, rfl, rfl, [Event.printf_exit k.cur.tid status, Event.thread_exit], ?_, ?_⟩
    · simp [Kernel.log]
    · intro e he
      simp only [List.mem_cons, List.mem_singleton, List.not_mem_nil, or_false] at he
      rcases he with he | he <;> subst he <;> rfl

theorem exit_terminated {α : Type} (k : Kernel) :
    terminated_before_filesys k (exit k (-1) : Kernel × Outcome α) := exit_spec k (-1)

/-- Claim C5.  When the user pointer passed to `exec`, `create`, `remove`,
`open`, `read` or `write` is null, at or above `PHYS_BASE`, or not mapped in the
page directory of the caller, the handler ends in `exit (-1)`, and up to that
point it has neither taken the filesystem lock, nor called a filesystem
operation, nor changed the open-file list. -/
theorem bad_pointer_terminates (c : Params) (env : Env) (k : Kernel) (ptr : Nat)
    (h : ptr = 0 ∨ c.PHYS_BASE ≤ ptr ∨ k.cur.pagedir ptr = 0) (fd : Int) (size : Nat) :
    terminated_before_filesys k (exec c env k ptr) ∧
      terminated_before_filesys k (create c env k ptr size) ∧
      terminated_before_filesys k (remove c env k ptr) ∧
      terminated_before_filesys k («open» c env k ptr) ∧
      terminated_before_filesys k (read c env k fd ptr size) ∧
      terminated_before_filesys k (write c env k fd ptr size) := by
  have hv := is_valid_ptr_bad c k ptr h
  refine ⟨?_, ?_, ?_, ?_, ?_, ?_⟩
  · simp only [exec, hv, Bool.not_false, if_true]
    exact exit_terminated k
  · simp only [create, hv, Bool.not_false, if_true]
    exact exit_terminated k
  · simp only [remove, hv, Bool.not_false, if_true]
    exact exit_terminated k
  · simp only [«open», hv, Bool.not_false, if_true]
    exact exit_terminated k
  · simp only [read, hv, Bool.not_false, Bool.true_or, if_true]
    exact exit_terminated k
  · simp only [write, hv, Bool.not_false, Bool.true_or, if_true]
    exact exit_terminated k

/-- The six handlers called with a null pointer. -/
theorem bad_pointer_terminates_witness :
    ((0 : Nat) = 0 ∨ pintos.PHYS_BASE ≤ 0 ∨ demo_kernel.cur.pagedir 0 = 0) ∧
    (terminated_before_filesys demo_kernel (exec pintos demo_env demo_kernel 0) ∧
      terminated_before_filesys demo_kernel (create pintos demo_env demo_kernel 0 16) ∧
      terminated_before_filesys demo_kernel (remove pintos demo_env demo_kernel 0) ∧
      terminated_before_filesys demo_kernel («open» pintos demo_env demo_kernel 0) ∧
      terminated_before_filesys demo_kernel (read pintos demo_env demo_kernel 3 0 16) ∧
      terminated_before_filesys demo_kernel (write pintos demo_env demo_kernel 3 0 16)) :=
  ⟨Or.inl rfl, bad_pointer_terminates pintos demo_env demo_kernel 0 (Or.inl rfl) 3 16⟩

theorem get_open_file_some (k : Kernel) (fd : Int) (d : file_descriptor)
    (h : get_open_file k fd = some d) : d ∈ k.open_files ∧ d.fd_num = fd := by
  unfold get_open_file at h
  have h1 := List.find?_some h
  have h2 := List.mem_of_find?_eq_some h
  exact ⟨List.mem_reverse.mp h2, by simpa using h1⟩

/-- Claim C6.  When no descriptor of the open-file list with number `fd` is
owned by the calling thread (in particular when `fd` is not in the list),
`close (fd)` only takes and releases the filesystem lock: the open-file list is
unchanged, so a descriptor with that number keeps its id, owner and file, and no
file is closed. -/
theorem close_not_owner (env : Env) (k : Kernel) (fd : Int)
    (h : ∀ d ∈ k.open_files, d.fd_num = fd → d.owner ≠ k.cur.tid) :
    close env k fd = ((k.log .lock_acquire_fs_lock).log .lock_release_fs_lock, .ret ()) ∧
      (close env k fd).1.open_files = k.open_files ∧
      (close env k fd).1.trace =
        k.trace ++ [Event.lock_acquire_fs_lock, Event.lock_release_fs_lock] := by
  have key : close env k fd =
      ((k.log .lock_acquire_fs_lock).log .lock_release_fs_lock, .ret ()) := by
    simp only [close]
    cases hg : get_open_file (k.log .lock_acquire_fs_lock) fd with
    | none => rfl
    | some d =>
      obtain ⟨hm, hf⟩ := get_open_file_some _ fd d hg
      have hne : d.owner ≠ (k.log .lock_acquire_fs_lock).cur.tid := h d hm hf
      simp only [hne, if_false]
  refine ⟨key, ?_, ?_⟩
  · rw [key]
    rfl
  · rw [key]
    simp [Kernel.log]

/-- Thread `5` closes descriptor `2`, which thread `7` owns. -/
theorem close_not_owner_witness :
    (∀ d ∈ demo_kernel_foreign.open_files, d.fd_num = 2 → d.owner ≠ demo_kernel_foreign.cur.tid) ∧
    (close demo_env demo_kernel_foreign 2 =
        ((demo_kernel_foreign.log .lock_acquire_fs_lock).log .lock_release_fs_lock, .ret ()) ∧
      (close demo_env demo_kernel_foreign 2).1.open_files = demo_kernel_foreign.open_files ∧
      (close demo_env demo_kernel_foreign 2).1.trace =
        demo_kernel_foreign.trace ++ [Event.lock_acquire_fs_lock, Event.lock_release_fs_lock]) :=
  ⟨by decide, close_not_owner demo_env demo_kernel_foreign 2 (by decide)⟩

theorem close_file_by_owner_loop_spec (tid : Int) :
    ∀ (rest kept : List file_descriptor) (trace : List Event),
      close_file_by_owner_loop tid kept rest trace =
        (kept ++ rest.filter (fun d => decide (d.owner ≠ tid)),
          trace ++ (rest.filter (fun d => decide (d.owner = tid))).map
            (fun d => Event.file_close d.file_struct)) := by
  intro rest
  induction rest with
  | nil =>
    intro kept trace
    simp [close_file_by_owner_loop]
  | cons d rest ih =>
    intro kept trace
    by_cases hd : d.owner = tid
    · simp [close_file_by_owner_loop, hd, ih]
    · simp [close_file_by_owner_loop, hd, ih]

theorem close_file_by_owner_open_files (k : Kernel) (tid : Int) :
    (close_file_by_owner k tid).open_files =
        k.open_files.filter (fun d => decide (d.owner ≠ tid)) ∧
      (close_file_by_owner k tid).fd_current = k.fd_current := by
  have key := close_file_by_owner_loop_spec tid k.open_files [] k.trace
  exact ⟨by simp only [close_file_by_owner, key, List.nil_append], rfl⟩

/-- Claim C9 (exit sweep).  After `close_file_by_owner (tid)` the open-file
list consists of exactly the descriptors whose owner is not `tid`, in their
original order and unmodified; none owned by `tid` remains; and the calls made
are one `file_close` on the file of each removed descriptor, in list order, and
nothing else. -/
theorem close_file_by_owner_sweeps (k : Kernel) (tid : Int) :
    (close_file_by_owner k tid).open_files =
        k.open_files.filter (fun d => decide (d.owner ≠ tid)) ∧
      (∀ d ∈ (close_file_by_owner k tid).open_files, d.owner ≠ tid) ∧
      (close_file_by_owner k tid).trace =
        k.trace ++ (k.open_files.filter (fun d => decide (d.owner = tid))).map
          (fun d => Event.file_close d.file_struct) ∧
      (close_file_by_owner k tid).fd_current = k.fd_current := by
  have key := close_file_by_owner_loop_spec tid k.open_files [] k.trace
  refine ⟨?_, ?_, ?_, rfl⟩
  · simp only [close_file_by_owner, key, List.nil_append]
  · intro d hd
    simp only [close_file_by_owner, key, List.nil_append, List.mem_filter] at hd
    simpa using hd.2
  · simp only [close_file_by_owner, key]

/-- Claim C7.  `sys_mmap (fd, addr)` returns `-1` and leaves the whole kernel
state, in particular the mapping list and the supplemental page table of the
caller, unchanged whenever `addr` is null, `addr` is not page-aligned, or `fd` is
`0` or `1`. -/
theorem sys_mmap_rejects (c : Params) (env : Env) (k : Kernel) (fd : Int) (upage : Nat)
    (h : upage = 0 ∨ pg_ofs c upage ≠ 0 ∨ fd = 0 ∨ fd = 1) :
    sys_mmap c env k fd upage = (k, .ret (-1)) ∧
      (sys_mmap c env k fd upage).1.cur.mmap_list = k.cur.mmap_list ∧
      (sys_mmap c env k fd upage).1.cur.supt = k.cur.supt := by
  have key : sys_mmap c env k fd upage = (k, .ret (-1)) := by
    unfold sys_mmap
    by_cases h1 : upage = 0 ∨ pg_ofs c upage ≠ 0
    · rw [if_pos h1]
    · have h2 : fd ≤ 1 := by
        rcases h with h | h | h | h
        · exact absurd (Or.inl h) h1
        · exact absurd (Or.inr h) h1
        · omega
        · omega
      rw [if_neg h1, if_pos h2]
  exact ⟨key, by rw [key], by rw [key]⟩

/-- The call `sys_mmap (3, 0x10000001)`, whose address is not page-aligned. -/
theorem sys_mmap_rejects_witness :
    ((0x10000001 : Nat) = 0 ∨ pg_ofs pintos 0x10000001 ≠ 0 ∨ (3 : Int) = 0 ∨ (3 : Int) = 1) ∧
    (sys_mmap pintos demo_env demo_kernel 3 0x10000001 = (demo_kernel, .ret (-1)) ∧
      (sys_mmap pintos demo_env demo_kernel 3 0x10000001).1.cur.mmap_list =
        demo_kernel.cur.mmap_list ∧
      (sys_mmap pintos demo_env demo_kernel 3 0x10000001).1.cur.supt = demo_kernel.cur.supt) :=
  ⟨Or.inr (Or.inl (by decide)),
    sys_mmap_rejects pintos demo_env demo_kernel 3 0x10000001 (Or.inr (Or.inl (by decide)))⟩

/-- Claim C8 fails as stated.  A process without mappings calls `sys_mmap`,
which returns `1`, unmaps it with `sys_munmap (1)`, and calls `sys_mmap` again:
the second successful call returns `1` too, which is not strictly greater than
the id returned before. -/
theorem sys_mmap_id_returned_twice :
    (sys_mmap pintos demo_env demo_kernel 3 0x10000000).2 = .ret 1 ∧
      (sys_munmap pintos (sys_mmap pintos demo_env demo_kernel 3 0x10000000).1 1).2 = .ret true ∧
      (sys_mmap pintos demo_env
        (sys_munmap pintos (sys_mmap pintos demo_env demo_kernel 3 0x10000000).1 1).1
        3 0x10000000).2 = .ret 1 ∧
      ¬ ((1 : Int) < 1) := by
  refine ⟨rfl, rfl, rfl, by decide⟩

theorem sys_mmap_open_file_cur (env : Env) (k : Kernel) (fd : Int) :
    (sys_mmap_open_file env k fd).2.cur = k.cur := by
  unfold sys_mmap_open_file
  split
  · split <;> rfl
  · rfl

theorem sys_mmap_assign_cases (env : Env) (k : Kernel) (f upage file_size : Nat) :
    ((sys_mmap_assign env k f upage file_size).1.cur.mmap_list = k.cur.mmap_list ∧
        ∀ mid, (sys_mmap_assign env k f upage file_size).2 ≠ .ret mid) ∨
      ∃ mid, (sys_mmap_assign env k f upage file_size).2 = .ret mid ∧
        (sys_mmap_assign env k f upage file_size).1.cur.mmap_list =
          k.cur.mmap_list ++ [mmap_desc.mk mid f upage file_size] ∧
        ((k.cur.mmap_list.getLast? = none ∧ mid = 1) ∨
          ∃ back, k.cur.mmap_list.getLast? = some back ∧ back.id < INT_MAX ∧
            mid = back.id + 1) := by
  unfold sys_mmap_assign
  cases hl : k.cur.mmap_list.getLast? with
  | none =>
    simp only
    cases env.malloc_ok with
    | true =>
      refine Or.inr ⟨1, rfl, rfl, ?_⟩
      simp
    | false => exact Or.inl ⟨rfl, fun mid h => by cases h⟩
  | some back =>
    simp only
    by_cases hb : back.id < INT_MAX
    · simp only [hb, if_true]
      cases env.malloc_ok with
      | true =>
        refine Or.inr ⟨back.id + 1, rfl, rfl, ?_⟩
        simp [hb]
      | false => exact Or.inl ⟨rfl, fun mid h => by cases h⟩
    · rw [if_neg hb]
      exact Or.inl ⟨rfl, fun mid h => by cases h⟩

theorem sys_mmap_cases (c : Params) (env : Env) (k : Kernel) (fd : Int) (upage : Nat) :
    ((sys_mmap c env k fd upage).1.cur.mmap_list = k.cur.mmap_list ∧
        ∀ mid, (sys_mmap c env k fd upage).2 = .ret mid → mid = -1) ∨
      ∃ mid f size, (sys_mmap c env k fd upage).2 = .ret mid ∧
        (sys_mmap c env k fd upage).1.cur.mmap_list =
          k.cur.mmap_list ++ [mmap_desc.mk mid f upage size] ∧
        ((k.cur.mmap_list.getLast? = none ∧ mid = 1) ∨
          ∃ back, k.cur.mmap_list.getLast? = some back ∧ back.id < INT_MAX ∧
            mid = back.id + 1) := by
  have hcur := sys_mmap_open_file_cur env (k.log .lock_acquire_fs_lock) fd
  have hcur2 : (sys_mmap_open_file env (k.log .lock_acquire_fs_lock) fd).2.cur.mmap_list
      = k.cur.mmap_list := by rw [hcur]; rfl
  unfold sys_mmap
  split
  · exact Or.inl ⟨rfl, fun mid h => by cases h; rfl⟩
  · split
    · exact Or.inl ⟨rfl, fun mid h => by cases h; rfl⟩
    · simp only
      split
      · exact Or.inl ⟨hcur2, fun mid h => by cases h; rfl⟩
      · split
        · exact Or.inl ⟨hcur2, fun mid h => by cases h; rfl⟩
        · rcases sys_mmap_assign_cases env
            (sys_mmap_map_pages c
              ((sys_mmap_open_file env (k.log .lock_acquire_fs_lock) fd).2.log
                (.file_length (sys_mmap_open_file env (k.log .lock_acquire_fs_lock) fd).1))
              (sys_mmap_open_file env (k.log .lock_acquire_fs_lock) fd).1 upage
              (env.file_length (sys_mmap_open_file env (k.log .lock_acquire_fs_lock) fd).1))
            (sys_mmap_open_file env (k.log .lock_acquire_fs_lock) fd).1 upage
            (env.file_length (sys_mmap_open_file env (k.log .lock_acquire_fs_lock) fd).1)
            with h | ⟨mid, h1, h2, h3⟩
          · left
            refine ⟨?_, ?_⟩
            · rw [h.1]
              exact hcur2
            · intro mid hm
              exact absurd hm (h.2 mid)
          · right
            refine ⟨mid, (sys_mmap_open_file env (k.log .lock_acquire_fs_lock) fd).1,
              env.file_length (sys_mmap_open_file env (k.log .lock_acquire_fs_lock) fd).1,
              h1, ?_, ?_⟩
            · rw [h2]
              exact congrArg (· ++ _) hcur2
            · have e : (sys_mmap_map_pages c
                  ((sys_mmap_open_file env (k.log .lock_acquire_fs_lock) fd).2.log
                    (.file_length (sys_mmap_open_file env (k.log .lock_acquire_fs_lock) fd).1))
                  (sys_mmap_open_file env (k.log .lock_acquire_fs_lock) fd).1 upage
                  (env.file_length (sys_mmap_open_file env (k.log .lock_acquire_fs_lock) fd).1)).cur.mmap_list
                  = k.cur.mmap_list := hcur2
              rw [e] at h3
              exact h3

theorem mmap_ids_below_back (l : List mmap_desc) (back : mmap_desc)
    (hp : l.Pairwise (fun a b => a.id < b.id)) (hl : l.getLast? = some back) :
    ∀ d ∈ l, d.id ≤ back.id := by
  obtain ⟨ys, rfl⟩ := List.getLast?_eq_some_iff.mp hl
  intro d hd
  rw [List.pairwise_append] at hp
  rcases List.mem_append.mp hd with h | h
  · exact le_of_lt (hp.2.2 d h back (List.mem_singleton.mpr rfl))
  · rw [List.mem_singleton.mp h]

theorem sys_munmap_sublist (c : Params) (k : Kernel) (mid : Int) :
    List.Sublist (sys_munmap c k mid).1.cur.mmap_list k.cur.mmap_list := by
  unfold sys_munmap
  split
  · exact List.Sublist.refl _
  · exact List.eraseP_sublist _

/-- The mappings a process holds have increasing ids, all at least `1`, and each
of them was returned by a successful `sys_mmap`. -/
theorem mmap_reachable_inv (c : Params) (ids : List Int) (k : Kernel)
    (hk : MmapReachable c ids k) :
    k.cur.mmap_list.Pairwise (fun a b => a.id < b.id) ∧
      (∀ d ∈ k.cur.mmap_list, 1 ≤ d.id) ∧ (∀ d ∈ k.cur.mmap_list, d.id ∈ ids) := by
  induction hk with
  | start k h =>
    rw [h]
    exact ⟨List.Pairwise.nil, fun d hd => (by cases hd), fun d hd => (by cases hd)⟩
  | sys_mmap env ids k fd upage _ ih =>
    obtain ⟨ih1, ih2, ih3⟩ := ih
    rcases sys_mmap_cases c env k fd upage with ⟨h1, h2⟩ | ⟨mid, f, size, h1, h2, h3⟩
    · rw [h1]
      refine ⟨ih1, ih2, ?_⟩
      intro d hd
      have := ih3 d hd
      cases ho : (sys_mmap c env k fd upage).2 with
      | ret m =>
        simp only [mmap_returned]
        split
        · exact this
        · exact List.mem_append_left _ this
      | exited s => exact this
      | fatal e => exact this
      | undefined => exact this
      | blocked => exact this
    · have hlt : ∀ d ∈ k.cur.mmap_list, d.id < mid := by
        rcases h3 with ⟨hn, _⟩ | ⟨back, hb, _, hm⟩
        · rw [List.getLast?_eq_none_iff.mp hn]
          intro d hd
          cases hd
        · intro d hd
          have := mmap_ids_below_back _ back ih1 hb d hd
          omega
      have hpos : 1 ≤ mid := by
        rcases h3 with ⟨_, hm⟩ | ⟨back, hb, _, hm⟩
        · omega
        · have := ih2 back (List.mem_of_getLast?_eq_some hb)
          omega
      have hne : mid ≠ -1 := by omega
      rw [h2, h1]
      simp only [mmap_returned, hne, if_false]
      refine ⟨?_, ?_, ?_⟩
      · rw [List.pairwise_append]
        refine ⟨ih1, List.pairwise_singleton _ _, ?_⟩
        intro a ha b hb
        rw [List.mem_singleton.mp hb]
        exact hlt a ha
      · intro d hd
        rcases List.mem_append.mp hd with h | h
        · exact ih2 d h
        · rw [List.mem_singleton.mp h]
          exact hpos
      · intro d hd
        rcases List.mem_append.mp hd with h | h
        · exact List.mem_append_left _ (ih3 d h)
        · rw [List.mem_singleton.mp h]
          exact List.mem_append_right _ (List.mem_singleton.mpr rfl)
  | sys_munmap ids k mid _ ih =>
    obtain ⟨ih1, ih2, ih3⟩ := ih
    have hs := sys_munmap_sublist c k mid
    exact ⟨ih1.sublist hs, fun d hd => ih2 d (hs.subset hd), fun d hd => ih3 d (hs.subset hd)⟩

/-- Claim C8 as amended.  In every state a process reaches from an empty mapping
list by `sys_mmap` and `sys_munmap` calls, a successful `sys_mmap` returns an id
that is at least `1`, is `1` when no `sys_mmap` of the process has succeeded
before or when the process holds no mapping, is otherwise one more than the id
of the last mapping in its list, and is strictly greater than the id of every
mapping the process holds at the call; the new mapping goes to the back of the
list. -/
theorem sys_mmap_id_above_held (c : Params) (ids : List Int) (k : Kernel)
    (hk : MmapReachable c ids k) (env : Env) (fd : Int) (upage : Nat) (mid : Int)
    (hret : (sys_mmap c env k fd upage).2 = .ret mid) (hne : mid ≠ -1) :
    1 ≤ mid ∧ (ids = [] → mid = 1) ∧ (k.cur.mmap_list = [] → mid = 1) ∧
      (∀ back, k.cur.mmap_list.getLast? = some back → mid = back.id + 1) ∧
      (∀ d ∈ k.cur.mmap_list, d.id < mid) ∧
      ∃ f size, (sys_mmap c env k fd upage).1.cur.mmap_list =
        k.cur.mmap_list ++ [mmap_desc.mk mid f upage size] := by
  obtain ⟨ih1, ih2, ih3⟩ := mmap_reachable_inv c ids k hk
  rcases sys_mmap_cases c env k fd upage with ⟨_, h2⟩ | ⟨mid1, f, size, h1, h2, h3⟩
  · exact absurd (h2 mid hret) hne
  · rw [hret] at h1
    cases h1
    have hempty : k.cur.mmap_list = [] → mid = 1 := by
      intro he
      rcases h3 with ⟨_, hm⟩ | ⟨back, hb, _, _⟩
      · exact hm
      · rw [he] at hb
        cases hb
    refine ⟨?_, ?_, hempty, ?_, ?_, f, size, h2⟩
    · rcases h3 with ⟨_, hm⟩ | ⟨back, hb, _, hm⟩
      · omega
      · have := ih2 back (List.mem_of_getLast?_eq_some hb)
        omega
    · intro hids
      apply hempty
      cases hl : k.cur.mmap_list with
      | nil => rfl
      | cons d t =>
        have := ih3 d (by rw [hl]; exact List.mem_cons_self _ _)
        rw [hids] at this
        cases this
    · intro back hb
      rcases h3 with ⟨hn, _⟩ | ⟨back1, hb1, _, hm⟩
      · rw [hn] at hb
        cases hb
      · rw [hb] at hb1
        cases hb1
        exact hm
    · rcases h3 with ⟨hn, _⟩ | ⟨back, hb, _, hm⟩
      · rw [List.getLast?_eq_none_iff.mp hn]
        intro d hd
        cases hd
      · intro d hd
        have := mmap_ids_below_back _ back ih1 hb d hd
        omega

theorem demo_kernel_mmap_reachable : MmapReachable pintos [] demo_kernel :=
  MmapReachable.start demo_kernel rfl

/-- The first `sys_mmap` of a process without mappings returns `1`. -/
theorem sys_mmap_id_above_held_witness :
    MmapReachable pintos [] demo_kernel ∧
    (sys_mmap pintos demo_env demo_kernel 3 0x10000000).2 = .ret 1 ∧ (1 : Int) ≠ -1 ∧
    (1 ≤ (1 : Int) ∧ (([] : List Int) = [] → (1 : Int) = 1) ∧
      (demo_kernel.cur.mmap_list = [] → (1 : Int) = 1) ∧
      (∀ back, demo_kernel.cur.mmap_list.getLast? = some back → (1 : Int) = back.id + 1) ∧
      (∀ d ∈ demo_kernel.cur.mmap_list, d.id < 1) ∧
      ∃ f size, (sys_mmap pintos demo_env demo_kernel 3 0x10000000).1.cur.mmap_list =
        demo_kernel.cur.mmap_list ++ [mmap_desc.mk 1 f 0x10000000 size]) :=
  ⟨demo_kernel_mmap_reachable, rfl, by decide,
    sys_mmap_id_above_held pintos [] demo_kernel demo_kernel_mmap_reachable demo_env 3
      0x10000000 1 rfl (by decide)⟩


theorem open_cases (c : Params) (env : Env) (k : Kernel) (file_name : Nat) :
    ((«open» c env k file_name).1.open_files = k.open_files ∧
        k.fd_current ≤ («open» c env k file_name).1.fd_current ∧
        ∀ fd, («open» c env k file_name).2 = .ret fd → fd = -1) ∨
      («open» c env k file_name).2 = .ret (k.fd_current + 1) ∧
        («open» c env k file_name).1.open_files =
          k.open_files ++ [file_descriptor.mk (k.fd_current + 1) k.cur.tid
            (env.filesys_open file_name)] ∧
        («open» c env k file_name).1.fd_current = k.fd_current + 1 ∧
        k.fd_current < INT_MAX := by
  unfold «open»
  split
  · obtain ⟨h1, h2, h3, _⟩ := @exit_spec Int k (-1)
    refine Or.inl ⟨h2, le_of_eq h3.symm, ?_⟩
    intro fd hfd
    rw [h1] at hfd
    cases hfd
  · simp only
    split
    · by_cases hlt : k.fd_current < INT_MAX
      · cases hm : env.malloc_ok with
        | true =>
          right
          simp [allocate_fd, Kernel.log, hlt]
        | false =>
          left
          simp [allocate_fd, Kernel.log, hlt]
      · left
        simp [allocate_fd, Kernel.log, hlt]
    · exact Or.inl ⟨rfl, le_refl _, fun fd h => by cases h; rfl⟩

theorem close_open_file_scan_sublist (fd : Int) :
    ∀ (l rest : List file_descriptor) (d : file_descriptor),
      close_open_file_scan fd l = some (d, rest) → List.Sublist rest l := by
  intro l
  induction l with
  | nil =>
    intro rest d h
    cases h
  | cons x prev ih =>
    intro rest d h
    unfold close_open_file_scan at h
    split at h
    · cases h
      exact List.sublist_cons_self _ _
    · cases hs : close_open_file_scan fd prev with
      | none =>
        rw [hs] at h
        cases h
      | some p =>
        obtain ⟨y, r⟩ := p
        rw [hs] at h
        cases h
        exact List.Sublist.cons₂ _ (ih _ _ hs)

theorem close_open_file_sublist (env : Env) (k : Kernel) (fd : Int) :
    List.Sublist (close_open_file env k fd).1.open_files k.open_files ∧
      (close_open_file env k fd).1.fd_current = k.fd_current := by
  unfold close_open_file
  split
  · exact ⟨List.Sublist.refl _, rfl⟩
  · split
    · rename_i d rest hs
      have h1 := (close_open_file_scan_sublist fd _ rest d hs).reverse
      rw [List.reverse_reverse] at h1
      exact ⟨h1, rfl⟩
    · exact ⟨List.Sublist.refl _, rfl⟩

theorem close_sublist (env : Env) (k : Kernel) (fd : Int) :
    List.Sublist (close env k fd).1.open_files k.open_files ∧
      (close env k fd).1.fd_current = k.fd_current := by
  unfold close
  simp only
  split
  · split
    · have h := close_open_file_sublist env (k.log .lock_acquire_fs_lock) fd
      split
      · rename_i k2 u heq
        rw [heq] at h
        exact h
      · rename_i k2 o _ heq
        rw [heq] at h
        exact h
    · exact ⟨List.Sublist.refl _, rfl⟩
  · exact ⟨List.Sublist.refl _, rfl⟩

/-- The numbers in the open-file list are pairwise distinct and none exceeds the
counter of `allocate_fd`. -/
theorem reachable_inv (c : Params) (k : Kernel) (hk : Reachable c k) :
    (k.open_files.map (fun d => d.fd_num)).Nodup ∧
      ∀ d ∈ k.open_files, d.fd_num ≤ k.fd_current := by
  induction hk with
  | init k h =>
    exact ⟨List.nodup_nil, fun d hd => (by cases hd)⟩
  | switch k cur others mem _ ih => exact ih
  | «open» env k file_name _ ih =>
    obtain ⟨ih1, ih2⟩ := ih
    rcases open_cases c env k file_name with ⟨h1, h2, _⟩ | ⟨_, h1, h2, _⟩
    · rw [h1]
      exact ⟨ih1, fun d hd => le_trans (ih2 d hd) h2⟩
    · rw [h1, h2]
      refine ⟨?_, ?_⟩
      · rw [List.map_append, List.nodup_append]
        refine ⟨ih1, List.nodup_singleton _, ?_⟩
        intro a ha hb
        simp only [List.map_cons, List.map_nil, List.mem_singleton] at hb
        obtain ⟨d, hd, rfl⟩ := List.mem_map.mp ha
        have := ih2 d hd
        omega
      · intro d hd
        rcases List.mem_append.mp hd with h | h
        · have := ih2 d h
          omega
        · rw [List.mem_singleton.mp h]
  | close env k fd _ ih =>
    obtain ⟨ih1, ih2⟩ := ih
    obtain ⟨hs, hf⟩ := close_sublist env k fd
    rw [hf]
    exact ⟨ih1.sublist (hs.map _), fun d hd => ih2 d (hs.subset hd)⟩
  | close_file_by_owner k tid _ ih =>
    obtain ⟨ih1, ih2⟩ := ih
    obtain ⟨h1, h4⟩ := close_file_by_owner_open_files k tid
    have hs : List.Sublist (close_file_by_owner k tid).open_files k.open_files := by
      rw [h1]
      exact List.filter_sublist _
    rw [h4]
    exact ⟨ih1.sublist (hs.map _), fun d hd => ih2 d (hs.subset hd)⟩

/-- Claim C10.  In every state reachable from `syscall_init` by `open`, `close`
and `close_file_by_owner` calls of any threads, the descriptor numbers in the
open-file list are pairwise distinct, and a successful `open` returns a number
different from every number in the list at the time of the call and appends a
descriptor with that number whose owner is the calling thread, after which the
numbers are still pairwise distinct. -/
theorem open_fd_fresh (c : Params) (k : Kernel) (hk : Reachable c k) :
    (k.open_files.map (fun d => d.fd_num)).Nodup ∧
      ∀ (env : Env) (file_name : Nat) (fd : Int),
        («open» c env k file_name).2 = .ret fd → fd ≠ -1 →
        (∀ d ∈ k.open_files, d.fd_num ≠ fd) ∧
          («open» c env k file_name).1.open_files =
            k.open_files ++ [file_descriptor.mk fd k.cur.tid (env.filesys_open file_name)] ∧
          ((«open» c env k file_name).1.open_files.map (fun d => d.fd_num)).Nodup := by
  obtain ⟨h1, h2⟩ := reachable_inv c k hk
  refine ⟨h1, ?_⟩
  intro env file_name fd hret hne
  have hnext := (reachable_inv c _ (Reachable.«open» env k file_name hk)).1
  rcases open_cases c env k file_name with ⟨_, _, h3⟩ | ⟨h3, h4, _, _⟩
  · exact absurd (h3 fd hret) hne
  · rw [hret] at h3
    cases h3
    refine ⟨?_, h4, hnext⟩
    intro d hd
    have := h2 d hd
    omega

theorem demo_kernel_reachable : Reachable pintos demo_kernel :=
  Reachable.init demo_kernel rfl

/-- A successful `open`: with a valid pointer, a file the filesystem opens, a
record from the allocator and a counter below `INT_MAX`, `open` returns the
counter plus one. -/
theorem open_returns_next (c : Params) (env : Env) (k : Kernel) (file_name : Nat)
    (hv : is_valid_ptr c k file_name = true) (hf : env.filesys_open file_name ≠ 0)
    (hm : env.malloc_ok = true) (hlt : k.fd_current < INT_MAX) :
    («open» c env k file_name).2 = .ret (k.fd_current + 1) := by
  simp [«open», hv, hf, hm, allocate_fd, Kernel.log, hlt]

theorem demo_kernel_opened_reachable : Reachable pintos demo_kernel_opened :=
  Reachable.«open» demo_env demo_kernel 0x8048000 demo_kernel_reachable

/-- Two opens in a row.  After `syscall_init` thread `5` opens a file and gets
descriptor `2`; the state with that one descriptor is reachable, and a second
`open` on it succeeds with `3`, a number that differs from the `2` in the list,
and leaves the list holding `2` and `3`, both owned by thread `5`. -/
theorem open_fd_fresh_witness :
    Reachable pintos demo_kernel_opened ∧
    («open» pintos demo_env demo_kernel 0x8048000).2 = .ret 2 ∧
    demo_kernel_opened.open_files = [file_descriptor.mk 2 5 900] ∧
    («open» pintos demo_env demo_kernel_opened 0x8048000).2 = .ret 3 ∧
    (3 : Int) ≠ -1 ∧
    (demo_kernel_opened.open_files.map (fun d => d.fd_num)).Nodup ∧
    (∀ d ∈ demo_kernel_opened.open_files, d.fd_num ≠ 3) ∧
    («open» pintos demo_env demo_kernel_opened 0x8048000).1.open_files =
      demo_kernel_opened.open_files ++
        [file_descriptor.mk 3 demo_kernel_opened.cur.tid (demo_env.filesys_open 0x8048000)] ∧
    ((«open» pintos demo_env demo_kernel_opened 0x8048000).1.open_files.map
      (fun d => d.fd_num)).Nodup ∧
    («open» pintos demo_env demo_kernel_opened 0x8048000).1.open_files =
      [file_descriptor.mk 2 5 900, file_descriptor.mk 3 5 900] :=
  ⟨demo_kernel_opened_reachable, rfl, rfl, rfl, by decide,
    (open_fd_fresh pintos demo_kernel_opened demo_kernel_opened_reachable).1,
    ((open_fd_fresh pintos demo_kernel_opened demo_kernel_opened_reachable).2
      demo_env 0x8048000 3 rfl (by decide)).1,
    ((open_fd_fresh pintos demo_kernel_opened demo_kernel_opened_reachable).2
      demo_env 0x8048000 3 rfl (by decide)).2.1,
    ((open_fd_fresh pintos demo_kernel_opened demo_kernel_opened_reachable).2
      demo_env 0x8048000 3 rfl (by decide)).2.2,
    rfl⟩

/-- The keyboard loop of `read` never raises `counter`, keeps it at least `1`
when it starts there, and stores to no address but `buf`. -/
theorem read_stdin_loop_spec (env : Env) (buf : Nat) :
    ∀ (counter buffer taken : Nat) (mem : Nat → Nat),
      (read_stdin_loop env buf counter buffer taken mem).1 ≤ counter ∧
        (1 ≤ counter → 1 ≤ (read_stdin_loop env buf counter buffer taken mem).1) ∧
        ∀ a, a ≠ buf → (read_stdin_loop env buf counter buffer taken mem).2.2.2 a = mem a := by
  intro counter
  induction counter using Nat.strong_induction_on with
  | _ counter ih =>
    intro buffer taken mem
    match counter, ih with
    | 0, _ => exact ⟨le_refl _, fun h => h, fun a _ => rfl⟩
    | 1, _ => exact ⟨le_refl _, fun h => h, fun a _ => rfl⟩
    | n + 2, ih =>
      rw [read_stdin_loop]
      split
      · obtain ⟨h1, h2, h3⟩ := ih (n + 1) (by omega) ((buffer + 1) % 2 ^ 32) (taken + 1)
          (fun a => if a = buf then env.input_getc taken % 256 else mem a)
        refine ⟨by omega, fun _ => h2 (by omega), ?_⟩
        intro a ha
        rw [h3 a ha, if_neg ha]
      · exact ⟨le_refl _, fun h => h, fun a _ => rfl⟩

theorem to_int_le (n : Nat) : to_int n ≤ ((n % 2 ^ 32 : Nat) : Int) := by
  unfold to_int
  split
  · exact le_refl _
  · omega

/-- What `read (0, buffer, size)` does for a valid buffer and `size >= 1`: the
value it returns is at most `size - 1`, the byte at `buffer` is `0` afterwards, and
no other byte of user memory changes. -/
theorem read_stdin_spec (c : Params) (env : Env) (k : Kernel) (buffer size : Nat)
    (hv : is_valid_ptr c k buffer = true)
    (hv2 : is_valid_ptr c k ((buffer + size + (2 ^ 32 - 1)) % 2 ^ 32) = true)
    (h1 : 1 ≤ size) (h2 : size < 2 ^ 32) :
    ∃ n : Int, (read c env k STDIN_FILENO buffer size).2 = .ret n ∧ n ≤ (size : Int) - 1 ∧
      (read c env k STDIN_FILENO buffer size).1.mem buffer = 0 ∧
      ∀ a, a ≠ buffer → (read c env k STDIN_FILENO buffer size).1.mem a = k.mem a := by
  obtain ⟨l1, l2, l3⟩ := read_stdin_loop_spec env buffer size buffer 0 k.mem
  have hne : STDIN_FILENO ≠ STDOUT_FILENO := by decide
  simp only [read, hv, hv2, Bool.not_true, Bool.or_self, Bool.false_eq_true, if_false, hne,
    if_true, Kernel.log]
  refine ⟨_, rfl, ?_, ?_, ?_⟩
  · have hc1 := l2 h1
    have hmod : (size + (2 ^ 32 - (read_stdin_loop env buffer size buffer 0 k.mem).1)) % 2 ^ 32
        = size - (read_stdin_loop env buffer size buffer 0 k.mem).1 := by
      have : size + (2 ^ 32 - (read_stdin_loop env buffer size buffer 0 k.mem).1)
          = (size - (read_stdin_loop env buffer size buffer 0 k.mem).1) + 2 ^ 32 := by omega
      rw [this, Nat.add_mod_right]
      exact Nat.mod_eq_of_lt (by omega)
    have := to_int_le (size + (2 ^ 32 - (read_stdin_loop env buffer size buffer 0 k.mem).1))
    rw [hmod] at this
    omega
  · simp
  · intro a ha
    simp only [if_neg ha]
    exact l3 a ha

/-- Claim C11, evaluated on the code.  The keyboard delivers `A`, `B`, `C` and
then `0`, and every byte of the buffer is `7` before the call.
`read (0, buffer, 4)` returns `3`, yet afterwards the buffer holds `0, 7, 7, 7`:
none of the three characters is in `buffer[0..2]`, and `buffer[3]` is not `0`. -/
theorem read_stdin_keeps_no_characters :
    (read pintos demo_env demo_kernel_dirty STDIN_FILENO 0x8048000 4).2 = .ret 3 ∧
      (List.range 4).map demo_env.input_getc = [65, 66, 67, 0] ∧
      (List.range 4).map (fun i => demo_kernel_dirty.mem (0x8048000 + i)) = [7, 7, 7, 7] ∧
      (List.range 4).map (fun i =>
        (read pintos demo_env demo_kernel_dirty STDIN_FILENO 0x8048000 4).1.mem (0x8048000 + i))
        = [0, 7, 7, 7] :=
  ⟨rfl, rfl, rfl, rfl⟩

end Pintos
